import Mathlib

/-!
Verification of the citation-extraction / fetch-orchestration core of the
UltraWikiDomain pipeline (tools/extract_references.py and
tools/fetch_reference_pages.py).

The Python sources are embedded shallowly:
* text is modelled as `List Char` (one element per Unicode code point, which is
  exactly Python's `str` indexing / `len` semantics);
* each regular expression of the source is hand-compiled to a dedicated
  matcher whose search order (leftmost match, greedy / lazy preference,
  alternation order) reproduces the semantics of Python's `re` module for
  that pattern;
* JSON objects (citation records) are association lists in insertion order,
  mirroring Python dicts; `json.loads` / `json.dumps` and the two network
  fetch engines are external collaborators and enter as parameters;
* the orchestrator's file writes are modelled as an event trace.
-/

set_option maxRecDepth 4000

namespace Rag

/-! ## Python string primitives -/

/-- Whitespace for Python's `str.strip()` and for `\s` in a `re` pattern on
`str` (the two sets coincide): the six ASCII whitespace characters plus the
Unicode space code points. -/
def isPySpace (c : Char) : Bool :=
  c = ' ' ∨ c = '\t' ∨ c = '\n' ∨ c = '\x0d' ∨ c = '\x0b' ∨ c = '\x0c' ∨
  c.val = 0x85 ∨ c.val = 0xA0 ∨ c.val = 0x1680 ∨
  (0x2000 ≤ c.val ∧ c.val ≤ 0x200A) ∨
  c.val = 0x2028 ∨ c.val = 0x2029 ∨ c.val = 0x202F ∨ c.val = 0x205F ∨
  c.val = 0x3000

/-- Python `str.strip()` (no argument): drop whitespace from both ends. -/
def pyStrip (s : List Char) : List Char :=
  ((s.dropWhile isPySpace).reverse.dropWhile isPySpace).reverse

/-- Python `str.rstrip()` (no argument). -/
def pyRStrip (s : List Char) : List Char :=
  (s.reverse.dropWhile isPySpace).reverse

/-- Python `str.strip(chars)`: drop any of the given characters from both
ends. -/
def pyStripSet (set : List Char) (s : List Char) : List Char :=
  ((s.dropWhile (set.contains ·)).reverse.dropWhile (set.contains ·)).reverse

/-- Python `str.rstrip(chars)`. -/
def pyRStripSet (set : List Char) (s : List Char) : List Char :=
  (s.reverse.dropWhile (set.contains ·)).reverse

/-- Python `str.lower()` (ASCII case folding; the sources only lower-case
ASCII letters, other code points are unaffected). -/
def pyLower (s : List Char) : List Char := s.map Char.toLower

/-- `needle` occurs at the front of `haystack`. -/
def lstarts (needle hay : List Char) : Bool := needle.isPrefixOf hay

/-- Case-insensitive prefix test (for `re.IGNORECASE` literals; the literal
is given already lower-cased). -/
def ciStarts (needleLower hay : List Char) : Bool :=
  needleLower.isPrefixOf (pyLower (hay.take needleLower.length))

/-- Python `haystack.find(needle)`: index of the first occurrence, `none`
for Python's `-1`. -/
def findSub (hay needle : List Char) : Option Nat :=
  match hay with
  | [] => if needle = [] then some 0 else none
  | _ :: rest =>
    if lstarts needle hay then some 0
    else (findSub rest needle).map (· + 1)

/-- Python `needle in haystack`. -/
def isInfix (needle hay : List Char) : Bool := (findSub hay needle).isSome

/-- Python `str.find` as an `Int` (with `-1` for no occurrence), as the
sources compare the raw return value. -/
def findSubI (hay needle : List Char) : Int :=
  match findSub hay needle with
  | some n => (n : Int)
  | none => -1

/-- `re.sub(r'\s+', ' ', s)`: every maximal whitespace run becomes one
space.  The boolean tracks whether the previous character belonged to a run
already replaced. -/
def wsCollapseGo : Bool → List Char → List Char
  | _, [] => []
  | inWs, c :: rest =>
    if isPySpace c then
      if inWs then wsCollapseGo true rest else ' ' :: wsCollapseGo true rest
    else c :: wsCollapseGo false rest

def wsCollapse (s : List Char) : List Char := wsCollapseGo false s

/-- Python `str.split()` (no argument): whitespace-separated words, empty
words discarded.  Used only for the word count of the author segment. -/
def pySplitWs (s : List Char) : List (List Char) :=
  (s.splitOnP isPySpace).filter (· ≠ [])

/-- Line-break characters recognised by Python `str.splitlines` ("\r\n" is
additionally treated as a single break). -/
def isLineBreak (c : Char) : Bool :=
  c = '\n' ∨ c = '\x0d' ∨ c = '\x0b' ∨ c = '\x0c' ∨
  c.val = 0x1C ∨ c.val = 0x1D ∨ c.val = 0x1E ∨ c.val = 0x85 ∨
  c.val = 0x2028 ∨ c.val = 0x2029

/-- Python `str.splitlines()`: split at line breaks, no trailing empty line
for a trailing break. -/
def pySplitlinesGo (acc : List Char) : List Char → List (List Char)
  | [] => if acc = [] then [] else [acc.reverse]
  | '\x0d' :: '\n' :: rest2 => acc.reverse :: pySplitlinesGo [] rest2
  | c :: rest =>
    if isLineBreak c then acc.reverse :: pySplitlinesGo [] rest
    else pySplitlinesGo (c :: acc) rest

def pySplitlines (s : List Char) : List (List Char) := pySplitlinesGo [] s

def isDigitCh (c : Char) : Bool := '0' ≤ c ∧ c ≤ '9'
def isUpperAZ (c : Char) : Bool := 'A' ≤ c ∧ c ≤ 'Z'
def isLowerAZ (c : Char) : Bool := 'a' ≤ c ∧ c ≤ 'z'

/-! ## Generic pieces of the hand-compiled regular expressions -/

/-- Backtracking point for a greedy `X*` (with `X` a character class) in a
hand-compiled pattern: prefer consuming another class character, fall back to
the continuation — exactly the preference order of Python's `re`. -/
def greedyStar (p : Char → Bool) (cont : List Char → Bool) : List Char → Bool
  | [] => cont []
  | c :: rest =>
    (if p c then greedyStar p cont rest else false) || cont (c :: rest)

/-- Replace every non-overlapping match of a pattern by a computed
replacement, scanning left to right (Python `re.sub` with a global pattern).
`try?` returns the number of characters consumed and the replacement text;
all patterns compiled this way consume at least one character.  The fuel is
the string length, which bounds the number of scan steps. -/
def globalSub (try? : List Char → Option (Nat × List Char)) :
    Nat → List Char → List Char
  | 0, s => s
  | _, [] => []
  | fuel + 1, c :: rest =>
    match try? (c :: rest) with
    | some (n, repl) =>
      if n = 0 then c :: globalSub try? fuel rest
      else repl ++ globalSub try? fuel ((c :: rest).drop n)
    | none => c :: globalSub try? fuel rest

/-- Leftmost search: first position (with consumed length) where `try?`
matches. -/
def searchAt (try? : List Char → Option Nat) : Nat → List Char → Option (Nat × Nat)
  | _, [] => (try? []).map (fun n => (0, n))
  | 0, _ => none
  | fuel + 1, s@(_ :: rest) =>
    match try? s with
    | some n => some (0, n)
    | none => (searchAt try? fuel rest).map (fun (i, n) => (i + 1, n))

/-- `https?://` — returns the length of the scheme when it is present. -/
def schemeLen (s : List Char) : Option Nat :=
  if lstarts "https://".data s then some 8
  else if lstarts "http://".data s then some 7
  else none

/-! ## extract_references.py — the hand-compiled regular expressions -/

/-- The leading enumeration marker
`^\s*(\[[0-9]+\]|[0-9]+[.)]|[-*])\s+` (length of the marker alternative,
whose three branches start with distinct characters). -/
def markerLen : List Char → Option Nat
  | '[' :: r1 =>
    let d := r1.takeWhile isDigitCh
    if d ≠ [] && (match r1.drop d.length with | ']' :: _ => true | _ => false) then
      some (d.length + 2)
    else none
  | c :: r1 =>
    if isDigitCh c then
      let d := r1.takeWhile isDigitCh
      match r1.drop d.length with
      | x :: _ => if x = '.' ∨ x = ')' then some (d.length + 2) else none
      | [] => none
    else if c = '-' ∨ c = '*' then some 1 else none
  | [] => none

/-- `re.sub(r'^\s*(\[[0-9]+\]|[0-9]+[.)]|[-*])\s+', '', entry)`: anchored at
the start, so at most one replacement; the `\s+` after the marker must be
non-empty. -/
def stripLeadMarker (s : List Char) : List Char :=
  let rest := s.dropWhile isPySpace
  match markerLen rest with
  | some ml =>
    let after := rest.drop ml
    if (match after with | c :: _ => isPySpace c | [] => false) then
      after.dropWhile isPySpace
    else s
  | none => s

/-- `JUMP_PHRASE_PATTERN.sub('', entry)` for
`^\s*\^?\s*Jump up to:?` (IGNORECASE), anchored so at most one
replacement.  The optional caret is deterministic: failing with the caret
consumed also fails without it, since `^` is not whitespace. -/
def jumpPhraseStrip (s : List Char) : List Char :=
  let s1 := s.dropWhile isPySpace
  let s2 := match s1 with | '^' :: r => r | _ => s1
  let s3 := s2.dropWhile isPySpace
  if ciStarts "jump up to".data s3 then
    let s4 := s3.drop 10
    match s4 with | ':' :: r => r | _ => s4
  else s

/-- One match of `JUMP_CARET_PATTERN` = `\*\*\[\^]\([^)]*\)\*\*`,
replaced by a space. -/
def tryJumpCaret (s : List Char) : Option (Nat × List Char) :=
  if lstarts "**[^](".data s then
    let body := (s.drop 6).takeWhile (· ≠ ')')
    match s.drop (6 + body.length) with
    | ')' :: '*' :: '*' :: _ => some (6 + body.length + 3, [' '])
    | _ => none
  else none

def jumpCaretSub (s : List Char) : List Char := globalSub tryJumpCaret s.length s

/-- One match of `JUMP_INLINE_ANCHORS_PATTERN` =
`\[[^\]]+\]\(https?://[^)]+cite_ref[^)]*\)`, replaced by a space.  The
url part `[^)]+cite_ref[^)]*` matches the maximal `)`-free run exactly when
that run contains `cite_ref` preceded by at least one character. -/
def tryJumpAnchor (s : List Char) : Option (Nat × List Char) :=
  match s with
  | '[' :: s1 =>
    let t := s1.takeWhile (· ≠ ']')
    if t = [] then none else
    match s1.drop t.length with
    | ']' :: '(' :: s2 =>
      match schemeLen s2 with
      | some sl =>
        let u := (s2.drop sl).takeWhile (· ≠ ')')
        match s2.drop (sl + u.length) with
        | ')' :: _ =>
          if (findSub (u.drop 1) "cite_ref".data).isSome then
            some (1 + t.length + 2 + sl + u.length + 1, [' '])
          else none
        | _ => none
      | none => none
    | _ => none
  | _ => none

def jumpAnchorSub (s : List Char) : List Char := globalSub tryJumpAnchor s.length s

/-- One match of `MD_LINK_REGEX` = `\[([^\]]+)\]\((https?://[^)]+)\)`:
consumed length, link text (group 1) and link url (group 2, scheme
included). -/
def tryMdLink (s : List Char) : Option (Nat × List Char × List Char) :=
  match s with
  | '[' :: s1 =>
    let t := s1.takeWhile (· ≠ ']')
    if t = [] then none else
    match s1.drop t.length with
    | ']' :: '(' :: s2 =>
      match schemeLen s2 with
      | some sl =>
        let u := (s2.drop sl).takeWhile (· ≠ ')')
        if u = [] then none else
        match s2.drop (sl + u.length) with
        | ')' :: _ => some (1 + t.length + 2 + sl + u.length + 1, t, s2.take sl ++ u)
        | _ => none
      | none => none
    | _ => none
  | _ => none

/-- `MD_LINK_REGEX.findall(entry)`: non-overlapping matches left to right. -/
def mdLinkFindallGo : Nat → List Char → List (List Char × List Char)
  | 0, _ => []
  | _, [] => []
  | fuel + 1, s@(_ :: rest) =>
    match tryMdLink s with
    | some (n, t, u) => (t, u) :: mdLinkFindallGo fuel (s.drop n)
    | none => mdLinkFindallGo fuel rest

def mdLinkFindall (s : List Char) : List (List Char × List Char) :=
  mdLinkFindallGo s.length s

/-- The substitution replacing a full Markdown link by its text, used to
clean the author segment: the pattern `\[[^\]]+\]\(https?://[^)]+\)` with a
replacement that drops the leading `[` and the trailing `](...)`
(an inner `re.sub(r'^\[|\]\([^)]*\)$', '', match)`). -/
def tryLinkToText (s : List Char) : Option (Nat × List Char) :=
  match tryMdLink s with
  | some (n, t, _) => some (n, t)
  | none => none

def linkToTextSub (s : List Char) : List Char := globalSub tryLinkToText s.length s

def monthNames : List (List Char) :=
  ["January", "February", "March", "April", "May", "June", "July", "August",
   "September", "October", "November", "December"].map String.data

/-- Month-name alternation (case-sensitive).  No month name is a prefix of
another, so at most one branch can match. -/
def matchMonth (s : List Char) : Option Nat :=
  (monthNames.find? (fun m => lstarts m s)).map List.length

/-- Month-name alternation under `re.IGNORECASE`. -/
def matchMonthCI (s : List Char) : Option Nat :=
  (monthNames.find? (fun m => ciStarts (pyLower m) s)).map List.length

/-- `\d{1,2},` with the greedy two-digits-first preference. -/
def tryDayComma : List Char → Option Nat
  | a :: b :: ',' :: _ =>
    if isDigitCh a ∧ isDigitCh b then some 3
    else if isDigitCh a ∧ b = ',' then some 2 else none
  | a :: ',' :: _ => if isDigitCh a then some 2 else none
  | _ => none

/-- `\d{4}` followed by a given closing test. -/
def fourDigits (s : List Char) : Bool :=
  (s.take 4).length = 4 ∧ (s.take 4).all isDigitCh

/-- One match of `publish_date_pat` =
`\((January|...|December)\s+\d{1,2},\s+\d{4}\)` at the head of `s`
(consumed length). -/
def tryPublishDate (s : List Char) : Option Nat :=
  match s with
  | '(' :: s1 =>
    match matchMonth s1 with
    | some ml =>
      let s2 := s1.drop ml
      let w1 := (s2.takeWhile isPySpace).length
      if w1 = 0 then none else
      match tryDayComma (s2.drop w1) with
      | some dc =>
        let s3 := s2.drop (w1 + dc)
        let w2 := (s3.takeWhile isPySpace).length
        if w2 = 0 then none else
        let s4 := s3.drop w2
        if fourDigits s4 && (match s4.drop 4 with | ')' :: _ => true | _ => false) then
          some (1 + ml + w1 + dc + w2 + 4 + 1)
        else none
      | none => none
    | none => none
  | _ => none

/-- `publish_date_pat.search(entry)`: `(start, end)` of the leftmost
match. -/
def publishSearch (entry : List Char) : Option (Nat × Nat) :=
  (searchAt tryPublishDate entry.length entry).map (fun (i, n) => (i, i + n))

/-- One match of `retrieved_pat` =
`Retrieved\s+(January|...)\s+\d{1,2},\s+\d{4}\.?` (IGNORECASE) at the head
of `s`; the optional final dot is taken greedily. -/
def tryRetrieved (s : List Char) : Option Nat :=
  if ciStarts "retrieved".data s then
    let s1 := s.drop 9
    let w1 := (s1.takeWhile isPySpace).length
    if w1 = 0 then none else
    match matchMonthCI (s1.drop w1) with
    | some ml =>
      let s2 := s1.drop (w1 + ml)
      let w2 := (s2.takeWhile isPySpace).length
      if w2 = 0 then none else
      match tryDayComma (s2.drop w2) with
      | some dc =>
        let s3 := s2.drop (w2 + dc)
        let w3 := (s3.takeWhile isPySpace).length
        if w3 = 0 then none else
        let s4 := s3.drop w3
        if fourDigits s4 then
          some (9 + w1 + ml + w2 + dc + w3 + 4 +
            (match s4.drop 4 with | '.' :: _ => 1 | _ => 0))
        else none
      | none => none
    | none => none
  else none

/-- `retrieved_pat.search(entry)`: `(start, end)` of the leftmost match. -/
def retrievedSearch (entry : List Char) : Option (Nat × Nat) :=
  (searchAt tryRetrieved entry.length entry).map (fun (i, n) => (i, i + n))

/-! ## extract_references.py — build_reference_items -/

/-- `is_pure_anchor(txt, url)`: footnote/jump/single-letter links that carry
no bibliographic content. -/
def isPureAnchor (txt url : List Char) : Bool :=
  let t := pyStripSet ['_', '*', '"'] (pyLower (pyStrip txt))
  if url = [] then true
  else if isInfix "cite_ref".data url ∨ isInfix "cite_note".data url then true
  else if (match t with | [c] => isLowerAZ c | _ => false) then true
  else if isInfix "jump".data t then true
  else false

/-- `clean_name(s)`: collapse whitespace, strip, drop leading
`^`/`*`/`_`/whitespace (`re.sub(r'^[\^*_\s]+', '', s)`), strip again. -/
def cleanName (s : List Char) : List Char :=
  pyStrip ((pyStrip (wsCollapse s)).dropWhile
    (fun c => c = '^' ∨ c = '*' ∨ c = '_' ∨ isPySpace c))

/-- The search key `'[' + t + ']('` used with `entry.find` throughout the
title/source selection. -/
def linkKey (t : List Char) : List Char := '[' :: (t ++ "](".data)

/-- Position of the first external (non-`wikipedia.org`) content link whose
key occurs in the entry (the loop of the no-publish-date author branch). -/
def firstExtPos (entry : List Char) : List (List Char × List Char) → Option Nat
  | [] => none
  | (t, u) :: rest =>
    if ¬ isInfix "wikipedia.org".data u then
      match findSub entry (linkKey t) with
      | some p => some p
      | none => firstExtPos entry rest
    else firstExtPos entry rest

/-- The raw author segment: text before the publish date, else before the
first external content link, else before the first content link. -/
def authorSegmentRaw (entry : List Char) (contentLinks : List (List Char × List Char))
    (mPub : Option (Nat × Nat)) : List Char :=
  match mPub with
  | some (st, _) => pyStrip (entry.take st)
  | none =>
    match firstExtPos entry contentLinks with
    | some p => pyStrip (entry.take p)
    | none =>
      match contentLinks with
      | (t, _) :: _ =>
        match findSub entry (linkKey t) with
        | some p => pyStrip (entry.take p)
        | none => []
      | [] => []

/-- Cleaning of a non-empty author segment: jump-caret and cite-anchor
removal, two passes of link-to-text reduction (the source repeats the same
substitution), whitespace collapse, and removal of one trailing period. -/
def authorSegmentClean (seg : List Char) : List Char :=
  if seg = [] then seg else
  let s1 := jumpCaretSub seg
  let s2 := jumpAnchorSub s1
  let s3 := linkToTextSub s2
  let s4 := linkToTextSub s3
  let s5 := pyStrip (wsCollapse s4)
  if s5.getLast? = some '.' then pyStrip s5.dropLast else s5

/-- `re.match(r'^".*"$|^“.*”$', txt)`: the text is fully wrapped in straight
or curly quotes. -/
def quoteWrapped (txt : List Char) : Bool :=
  2 ≤ txt.length ∧
  ((txt.head? = some '"' ∧ txt.getLast? = some '"') ∨
   (txt.head? = some '“' ∧ txt.getLast? = some '”'))

/-- First content link satisfying a position-dependent predicate (the
shared shape of the four title-selection tiers). -/
def findLink (entry : List Char) (p : List Char → List Char → Int → Bool) :
    List (List Char × List Char) → Option (List Char × List Char)
  | [] => none
  | (t, u) :: rest =>
    if p t u (findSubI entry (linkKey t)) then some (t, u)
    else findLink entry p rest

/-- The four-tier title-link selection.  Tiers 1–3 skip links positioned
before `after_pub_pos` (`if pos < after_pub_pos: continue`); tier 4 takes the
first link not positioned inside the (cleaned) author segment. -/
def selectTitleLink (entry : List Char) (links : List (List Char × List Char))
    (afterPub : Int) (authorSeg : List Char) : Option (List Char × List Char) :=
  match findLink entry (fun t u pos =>
      ¬ (pos < afterPub) ∧ ¬ isInfix "wikipedia.org".data u ∧ quoteWrapped (pyStrip t)) links with
  | some l => some l
  | none =>
    match findLink entry (fun _ u pos =>
        ¬ (pos < afterPub) ∧ ¬ isInfix "wikipedia.org".data u) links with
    | some l => some l
    | none =>
      match findLink entry (fun _ _ pos => afterPub ≤ pos) links with
      | some l => some l
      | none =>
        findLink entry (fun _ _ pos =>
          authorSeg = [] ∨ (authorSeg.length : Int) ≤ pos) links

/-- The source link: first content link at or after the title position that
is not the title link, not an `Archived` link, and whose stripped text is
not the stripped title text; its text is taken with `strip('_* ')`. -/
def sourceFromLinks (entry titleText titleUrl : List Char) (titlePos : Int) :
    List (List Char × List Char) → List Char
  | [] => []
  | (t, u) :: rest =>
    if t = titleText ∧ u = titleUrl then sourceFromLinks entry titleText titleUrl titlePos rest
    else if findSubI entry (linkKey t) < titlePos then
      sourceFromLinks entry titleText titleUrl titlePos rest
    else if pyLower t = "archived".data then
      sourceFromLinks entry titleText titleUrl titlePos rest
    else if pyStrip t = pyStrip titleText then
      sourceFromLinks entry titleText titleUrl titlePos rest
    else pyStripSet ['_', '*', ' '] t

/-- One match of the italic-media pattern `_(\s*[^_]{2,}?)_` at the head of
`s`, returning group 1.  The lazy run cannot cross an underscore, so the
match uses the first closing underscore; the greedy `\s*` takes as much of
the leading whitespace as leaves two characters for `[^_]{2,}?`. -/
def tryItalicAt : List Char → Option (List Char)
  | '_' :: s1 =>
    let r := s1.takeWhile (· ≠ '_')
    if r.length + 1 ≤ s1.length ∧ 2 ≤ r.length then
      some (r.drop (min ((r.takeWhile isPySpace).length) (r.length - 2)))
    else none
  | _ => none

/-- `re.search` for the italic-media pattern (leftmost match, group 1). -/
def italicSearch : Nat → List Char → Option (List Char)
  | _, [] => none
  | 0, _ => none
  | fuel + 1, s@(_ :: rest) =>
    match tryItalicAt s with
    | some g => some g
    | none => italicSearch fuel rest

/-- Character class `[A-Za-z&\.]` of the capitalized-word-run pattern. -/
def isAcroClass (c : Char) : Bool :=
  isUpperAZ c ∨ isLowerAZ c ∨ c = '&' ∨ c = '.'

/-- The tail `\.(?:\s|$)` of the capitalized-word-run pattern; on success
returns the suffix starting at the dot (so the caller can delimit
group 1).  Entries have been whitespace-collapsed, so `$` can only be
end-of-string here. -/
def acroTail : List Char → Option (List Char)
  | '.' :: rest =>
    match rest with
    | [] => some ('.' :: rest)
    | c :: _ => if isPySpace c then some ('.' :: rest) else none
  | _ => none

/-- Lazy run `[A-Za-z&\.]*?` with a continuation: try the continuation
first (fewest characters), then consume one class character. -/
def acroRun (cont : List Char → Option (List Char)) : List Char → Option (List Char)
  | [] => cont []
  | c :: rest =>
    match cont (c :: rest) with
    | some r => some r
    | none => if isAcroClass c then acroRun cont rest else none

/-- The greedy `(?:\s+[A-Z][A-Za-z&\.]*?){0,4}` followed by the tail: with
repetitions left, prefer one more `\s+[A-Z]`-block (whose `\s+` is forced
maximal, as a shorter run leaves whitespace where `[A-Z]` is required)
before trying the tail. -/
def acroCont : Nat → List Char → Option (List Char)
  | 0, s => acroTail s
  | b + 1, s =>
    let block :=
      let w := (s.takeWhile isPySpace).length
      if 1 ≤ w then
        match s.drop w with
        | c :: rest => if isUpperAZ c then acroRun (acroCont b) rest else none
        | [] => none
      else none
    match block with
    | some r => some r
    | none => acroTail s

/-- `re.match(r'\s*([A-Z][A-Za-z&\.]*?(?:\s+[A-Z][A-Za-z&\.]*?){0,4})\.(?:\s|$)', s)`:
group 1 of the anchored match. -/
def acroMatch (s : List Char) : Option (List Char) :=
  let w := (s.takeWhile isPySpace).length
  match s.drop w with
  | c :: rest =>
    if isUpperAZ c then
      match acroRun (acroCont 4) rest with
      | some dotSuffix => some (c :: rest.take (rest.length - dotSuffix.length))
      | none => none
    else none
  | [] => none

def isWordChar (c : Char) : Bool :=
  isDigitCh c ∨ isUpperAZ c ∨ isLowerAZ c ∨ c = '_'

/-- `re.search(r'\b(NPR)\.(?:\s|$)', s)`: an `NPR.` token at a word
boundary followed by whitespace or the end. -/
def nprSearchGo (prev : Option Char) : List Char → Bool
  | [] => false
  | c :: rest =>
    ((match prev with | none => true | some pc => ! isWordChar pc) &&
     lstarts "NPR.".data (c :: rest) &&
     (match (c :: rest).drop 4 with | [] => true | d :: _ => isPySpace d)) ||
    nprSearchGo (some c) rest

def nprSearch (s : List Char) : Bool := nprSearchGo none s

/-- The textual media-name fallback for `source` (requested when no source
link was found or it equals the author): scan the plain text after the
title link's Markdown span, truncated before `Archived`/`Retrieved`, for an
italic span, else a capitalized word run ending in a period (rejecting the
words `retrieved`/`archived`), else a bare `NPR.`. -/
def computeCandidate (entry titleText titleUrl : List Char) : List Char :=
  let lm := '[' :: (titleText ++ (']' :: '(' :: (titleUrl ++ [')'])))
  match findSub entry lm with
  | none => []
  | some p =>
    let tail := entry.drop (p + lm.length)
    let cut0 := tail.length
    let cut1 := match findSub tail "Archived".data with
      | some k => if k < cut0 then k else cut0
      | none => cut0
    let cut2 := match findSub tail "Retrieved".data with
      | some k => if k < cut1 then k else cut1
      | none => cut1
    let ts := tail.take cut2
    let c1 := match italicSearch ts.length ts with
      | some g => pyStrip g
      | none =>
        match acroMatch ts with
        | some g =>
          let cand := pyStrip g
          if ¬ (pyLower cand = "retrieved".data ∨ pyLower cand = "archived".data) then cand
          else []
        | none => []
    if c1 = [] then (if nprSearch ts then "NPR".data else []) else c1

/-! ## Citation records (Python dicts in insertion order) -/

/-- One element of a persisted `attempt_log`. -/
structure LogEntry where
  round : Nat
  step : String
  engine : String
  url : String
  success : Bool
  error : String
deriving DecidableEq, Repr

/-- JSON values occurring in citation records. -/
inductive JVal where
  | s (v : String)
  | b (v : Bool)
  | i (v : Int)
  | log (v : List LogEntry)
  | null
deriving DecidableEq, Repr

/-- A citation record: a Python dict as an insertion-ordered association
list with unique keys. -/
abbrev CRec := List (String × JVal)

/-- `d.get(k)` (`None` for a missing key). -/
def dictGet (r : CRec) (k : String) : Option JVal :=
  (r.find? (fun kv => kv.1 = k)).map (·.2)

/-- `d[k] = v`: replace in place when the key exists (Python dicts keep the
original insertion position), append otherwise. -/
def dictSet (r : CRec) (k : String) (v : JVal) : CRec :=
  if (r.find? (fun kv => kv.1 = k)).isSome then
    r.map (fun kv => if kv.1 = k then (k, v) else kv)
  else r ++ [(k, v)]

/-- Python truthiness of a JSON value. -/
def jvalTruthy : JVal → Bool
  | .s v => v ≠ ""
  | .b v => v
  | .i v => v ≠ 0
  | .log v => v ≠ []
  | .null => false

/-- Truthiness of `d.get(k)` (missing key → `None` → falsy). -/
def truthyOpt : Option JVal → Bool
  | none => false
  | some v => jvalTruthy v

/-- The string content of a value that the source uses as a `str` (the
records' url fields are strings in every store the pipeline writes). -/
def asStr : Option JVal → String
  | some (.s v) => v
  | _ => ""

/-- The item dict built at the end of `build_reference_items`: mandatory
`title`/`url`/`is_external`, then each optional field added only when
truthy, in source order. -/
def mkItem (title url : List Char) (isExt : Bool) (author source : List Char)
    (archive : Option (List Char)) (pub ret : List Char) : CRec :=
  [("title", .s (String.mk title)), ("url", .s (String.mk url)), ("is_external", .b isExt)]
  ++ (if author ≠ [] then [("author", .s (String.mk author))] else [])
  ++ (if source ≠ [] then [("source", .s (String.mk source))] else [])
  ++ (match archive with
      | some a => if a ≠ [] then [("archive_url", .s (String.mk a))] else []
      | none => [])
  ++ (if pub ≠ [] then [("publish_date", .s (String.mk pub))] else [])
  ++ (if ret ≠ [] then [("retrieved_date", .s (String.mk ret))] else [])

/-- The entry-cleaning passes at the top of the `build_reference_items`
loop: leading marker, `Jump up` phrase, caret and cite-anchor links,
whitespace collapse. -/
def cleanEntry (entry0 : List Char) : List Char :=
  pyStrip (wsCollapse (jumpAnchorSub (jumpCaretSub (jumpPhraseStrip (stripLeadMarker entry0)))))

/-- The cleaned entry text of one raw entry (the value of the source's
`entry` variable after the substitutions). -/
def entryOf (raw : List Char) : List Char := cleanEntry (pyStrip raw)

/-- The source's `content_links`. -/
def contentLinksOf (raw : List Char) : List (List Char × List Char) :=
  (mdLinkFindall (entryOf raw)).filter (fun tu => ¬ isPureAnchor tu.1 tu.2)

/-- `publish_date` = group 0 of the publish-date match with the
parentheses stripped, else empty. -/
def publishDateOf (raw : List Char) : List Char :=
  match publishSearch (entryOf raw) with
  | some (st, en) => pyStripSet ['(', ')'] (((entryOf raw).drop st).take (en - st))
  | none => []

/-- `retrieved_date` = group 0 of the retrieved-date match, with a final
period appended when missing, else empty. -/
def retrievedDateOf (raw : List Char) : List Char :=
  let r0 :=
    match retrievedSearch (entryOf raw) with
    | some (st, en) => ((entryOf raw).drop st).take (en - st)
    | none => []
  if r0 ≠ [] ∧ r0.getLast? ≠ some '.' then r0 ++ ['.'] else r0

/-- The cleaned author segment (the source's `author_segment` after the
cleanup block). -/
def authorSegOf (raw : List Char) : List Char :=
  authorSegmentClean
    (authorSegmentRaw (entryOf raw) (contentLinksOf raw) (publishSearch (entryOf raw)))

/-- The author value after the 15-word noise filter. -/
def authorOf (raw : List Char) : List Char :=
  if authorSegOf raw ≠ [] ∧ 15 < (pySplitWs (authorSegOf raw)).length then []
  else authorSegOf raw

/-- `after_pub_pos`: end of the publish date, else the length of the
(cleaned) author segment, else 0. -/
def afterPubOf (raw : List Char) : Int :=
  match publishSearch (entryOf raw) with
  | some (_, en) => (en : Int)
  | none => if authorSegOf raw ≠ [] then ((authorSegOf raw).length : Int) else 0

/-- The selected title link of one entry. -/
def titleLinkOf (raw : List Char) : Option (List Char × List Char) :=
  selectTitleLink (entryOf raw) (contentLinksOf raw) (afterPubOf raw) (authorSegOf raw)

/-- The url of the first `Archived` content link (the source's
`archive_url` variable). -/
def archiveOf (raw : List Char) : Option (List Char) :=
  ((contentLinksOf raw).find? (fun tu => pyLower tu.1 = "archived".data)).map (·.2)

/-- The `source` value after both the link scan and the textual
fallback. -/
def sourceOf (raw titleText titleUrl : List Char) : List Char :=
  let source0 := sourceFromLinks (entryOf raw) titleText titleUrl
    (findSubI (entryOf raw) (linkKey titleText)) (contentLinksOf raw)
  if source0 = [] ∨ source0 = authorOf raw then
    let cand := computeCandidate (entryOf raw) titleText titleUrl
    if cand ≠ [] ∧ cand ≠ authorOf raw then pyStripSet ['_', '*', ' '] cand else source0
  else source0

/-- Title cleaning: strip, unquote, strip emphasis, collapse whitespace. -/
def titleCleanOf (titleText : List Char) : List Char :=
  wsCollapse (pyStripSet ['_', '*', ' '] (pyStripSet ['"', '“', '”'] (pyStrip titleText)))

/-- The author/source complementing passes: fill each from the other,
clean both names, fill again. -/
def finalAuthorSource (author source : List Char) : List Char × List Char :=
  let a1 := if author = [] ∧ source ≠ [] then source else author
  let s2 := if source = [] ∧ a1 ≠ [] then a1 else source
  let a2 := cleanName a1
  let s3 := cleanName s2
  let a3 := if a2 = [] ∧ s3 ≠ [] then s3 else a2
  let s4 := if s3 = [] ∧ a3 ≠ [] then a3 else s3
  (a3, s4)

/-- One iteration of the `build_reference_items` loop: parse one reference
entry into a citation record, or reject it (`None`).  The stages above are
composed in the source's order: emptiness check, link extraction, anchor
filtering, date extraction, author segmentation, title-link selection,
archive detection, source selection, internal-works-cited filter, title
cleaning, author/source complementing, record construction. -/
def processEntry (raw : List Char) : Option CRec :=
  if pyStrip raw = [] then none else
  if mdLinkFindall (entryOf raw) = [] then none else
  if contentLinksOf raw = [] then none else
  match titleLinkOf raw with
  | none => none
  | some (titleText, titleUrl) =>
    if isInfix "wikipedia.org".data titleUrl ∧
        ¬ (contentLinksOf raw).any (fun tu => ¬ isInfix "wikipedia.org".data tu.2) then none
    else
      let as := finalAuthorSource (authorOf raw) (sourceOf raw titleText titleUrl)
      some (mkItem (titleCleanOf titleText) titleUrl
        (¬ isInfix "wikipedia.org".data titleUrl) as.1 as.2 (archiveOf raw)
        (publishDateOf raw) (retrievedDateOf raw))

/-- `build_reference_items`: parse every entry, keeping the accepted
records in order. -/
def buildReferenceItems (refEntries : List (List Char)) : List CRec :=
  refEntries.filterMap processEntry

/-! ## extract_references.py — parse_references_block -/

/-- `re.match(r'^#{1,3} ', stripped)`: one to three `#` followed by a
space (the greedy `{1,3}` prefers three, but every order of the three
alternatives accepts the same lines). -/
def headingMatch (s : List Char) : Bool :=
  lstarts "### ".data s || lstarts "## ".data s || lstarts "# ".data s

/-- `stripped.lower().startswith(('external links', 'see also', 'notes'))`. -/
def stopPhrase (stripped : List Char) : Bool :=
  let low := pyLower stripped
  lstarts "external links".data low || lstarts "see also".data low ||
  lstarts "notes".data low

/-- The final alternation `(Jump up|[\*\^])` of the numbered-list start
pattern (IGNORECASE). -/
def numberedStartTok (s : List Char) : Bool :=
  ciStarts "jump up".data s || (match s with | c :: _ => c = '^' || c = '*' | [] => false)

/-- `re.match(r'^\s*1\.\s*[\^\*]*\s*(Jump up|[\*\^])', stripped, re.IGNORECASE)`,
compiled with the greedy backtracking order of the whitespace and
caret/star runs. -/
def numberedStartMatch (s : List Char) : Bool :=
  greedyStar isPySpace (fun s1 =>
    match s1 with
    | '1' :: '.' :: s2 =>
      greedyStar isPySpace (fun s3 =>
        greedyStar (fun c => c = '^' || c = '*') (fun s4 =>
          greedyStar isPySpace numberedStartTok s4) s3) s2
    | _ => false) s

/-- The final alternation `(Jump up|\*)` of the numbered-entry collection
pattern (IGNORECASE; the caret is absent from this alternation, unlike the
start pattern). -/
def numberedCollectTok (s : List Char) : Bool :=
  ciStarts "jump up".data s || (match s with | c :: _ => c = '*' | [] => false)

/-- `re.match(r'^\s*\d+\.\s*[\^\*]*\s*(Jump up|\*)', stripped, re.IGNORECASE)`. -/
def numberedCollectMatch (s : List Char) : Bool :=
  greedyStar isPySpace (fun s1 =>
    match s1 with
    | c :: s2 =>
      if isDigitCh c then
        greedyStar isDigitCh (fun s3 =>
          match s3 with
          | '.' :: s4 =>
            greedyStar isPySpace (fun s5 =>
              greedyStar (fun d => d = '^' || d = '*') (fun s6 =>
                greedyStar isPySpace numberedCollectTok s6) s5) s4
          | _ => false) s2
      else false
    | [] => false) s

/-- The four candidate indices tracked by the single scan of
`parse_references_block`. -/
structure ScanSt where
  ref? : Option Nat
  bib? : Option Nat
  cit? : Option Nat
  num? : Option Nat
deriving DecidableEq, Repr

/-- One line of the scan: References / Bibliography headings (plain or
`#`-prefixed, later occurrences overwrite), the `### Citations` sub-anchor
(which backfills a missing References start), and the first
numbered-footnote-list start.  The source's `re.fullmatch(r'-{3,}', ...)`
checks guard only `pass` statements and are omitted as no-ops. -/
def scanLine (i : Nat) (ln : List Char) (st : ScanSt) : ScanSt :=
  let stripped := pyStrip ln
  let low := pyLower stripped
  let st := if low = "references".data ∨ low = "参考文献".data then
      { st with ref? := some i } else st
  let st := if ((match low with | c :: _ => c = '#' | [] => false) &&
      isInfix "references".data low) then { st with ref? := some i } else st
  let st := if low = "bibliography".data ∨ low = "书目".data ∨ low = "参考书目".data then
      { st with bib? := some i } else st
  let st := if ((match low with | c :: _ => c = '#' | [] => false) &&
      isInfix "bibliography".data low) then { st with bib? := some i } else st
  let st := if isInfix "### citations".data low then
      let st := { st with cit? := some i }
      if st.ref? = none then { st with ref? := some i } else st
    else st
  let st := if st.num? = none ∧ numberedStartMatch stripped then
      { st with num? := some i } else st
  st

def scanIndices (lines : List (List Char)) : ScanSt :=
  lines.enum.foldl (fun st p => scanLine p.1 p.2 st) ⟨none, none, none, none⟩

/-- `min(x for x in [bib, num, n] if x is not None and x > ref)` — the line
count `n` always qualifies. -/
def refEndBound (r n : Nat) (bib? num? : Option Nat) : Nat :=
  let e := n
  let e := match bib? with | some x => if r < x then min e x else e | none => e
  match num? with | some x => if r < x then min e x else e | none => e

/-- The References collection loop body (with its two `break` rules). -/
def refCollectGo : List (List Char) → List (List Char)
  | [] => []
  | ln :: rest =>
    let stripped := pyStrip ln
    let low := pyLower stripped
    if headingMatch stripped ∧
        ¬ (isInfix "reference".data low ∨ isInfix "citation".data low ∨
           isInfix "bibliography".data low) then []
    else if stopPhrase stripped ∧ ¬ isInfix "bibliography".data (pyLower stripped) then []
    else ln :: refCollectGo rest

/-- The Bibliography collection loop body. -/
def bibCollectGo : List (List Char) → List (List Char)
  | [] => []
  | ln :: rest =>
    let stripped := pyStrip ln
    let low := pyLower stripped
    if headingMatch stripped ∧
        ¬ (isInfix "bibliography".data low ∨ isInfix "reference".data low ∨
           isInfix "citation".data low) then []
    else if stopPhrase stripped then []
    else ln :: bibCollectGo rest

/-- The numbered-footnote-list collection loop body: numbered entries and
blank lines are kept, headings and stop phrases break, anything else is a
continuation line and is kept. -/
def numCollectGo : List (List Char) → List (List Char)
  | [] => []
  | ln :: rest =>
    let stripped := pyStrip ln
    if numberedCollectMatch stripped then ln :: numCollectGo rest
    else if stripped = [] then ln :: numCollectGo rest
    else if headingMatch stripped then []
    else if stopPhrase stripped then []
    else ln :: numCollectGo rest

/-- The backward scan over the (reversed) document lines used when no
References/Bibliography/numbered start was found: blank lines are skipped,
bulleted Markdown links and `wikimedia` lines are collected, a heading or
an `edit section` line stops the scan, as does a bracket-free plain-text
line longer than 20 characters; other lines are skipped. -/
def fallbackGo : List (List Char) → List (List Char)
  | [] => []
  | ln :: rest =>
    let line := pyStrip ln
    if line = [] then fallbackGo rest
    else if ((match line with | c :: _ => c = '*' | [] => false) &&
        isInfix "[".data line && isInfix "](".data line) then ln :: fallbackGo rest
    else if (isInfix "wikimedia".data (pyLower line) && isInfix "[".data line) then
      ln :: fallbackGo rest
    else if ((match line with | c :: _ => c = '#' | [] => false) ||
        isInfix "edit section".data (pyLower line)) then []
    else if (! (match line with | c :: _ => c = '*' | [] => false) &&
        ! isInfix "[".data line && decide (20 < line.length)) then []
    else fallbackGo rest

/-- The end-of-document fallback: scan backward from the last line,
restore document order. -/
def fallbackLines (lines : List (List Char)) : List (List Char) :=
  (fallbackGo lines.reverse).reverse

/-- `parse_references_block(markdown_text)`: locate the reference lines of
a Markdown document. -/
def parseReferencesBlock (markdownText : List Char) : List (List Char) :=
  let lines := pySplitlines markdownText
  let n := lines.length
  let st := scanIndices lines
  let c1 := match st.ref? with
    | some r =>
      let startC := match st.cit? with | some c => c + 1 | none => r + 1
      let endC := refEndBound r n st.bib? st.num?
      refCollectGo ((lines.drop startC).take (endC - startC))
    | none => []
  let c2 := match st.bib? with
    | some b =>
      let endC := match st.num? with
        | some v => if v ≠ 0 ∧ b < v then v else n
        | none => n
      bibCollectGo ((lines.drop (b + 1)).take (endC - (b + 1)))
    | none => []
  let c3 := match st.num? with
    | some nb => numCollectGo (lines.drop nb)
    | none => []
  if st.ref? = none ∧ st.bib? = none ∧ st.num? = none then fallbackLines lines
  else c1 ++ c2 ++ c3

/-! ## jina_scraping.py — slugify -/

/-- `re.sub(r' {2,}', ' ', text)`: runs of two or more literal spaces
become one space. -/
def spaceRunCollapse (s : List Char) : List Char :=
  globalSub (fun t =>
    match t with
    | ' ' :: ' ' :: rest => some (2 + (rest.takeWhile (· = ' ')).length, [' '])
    | _ => none) s.length s

/-- `slugify(text, max_length=80)`: strip, collapse whitespace, drop
underscores, keep only letters/digits/space/hyphen, collapse double
spaces, strip space/hyphen, default `'page'`, truncate to 80 with
trailing hyphens removed. -/
def slugify (text : List Char) : List Char :=
  let t := pyStrip text
  let t := wsCollapse t
  let t := t.map (fun c => if c = '_' then ' ' else c)
  let t := t.filter (fun c => isUpperAZ c ∨ isLowerAZ c ∨ isDigitCh c ∨ c = '-' ∨ c = ' ')
  let t := spaceRunCollapse t
  let t := pyStripSet [' ', '-'] t
  let t := if t = [] then "page".data else t
  if 80 < t.length then pyRStripSet ['-'] (t.take 80) else t

/-! ## fetch_reference_pages.py -/

/-- `is_low_quality(content)`: `(needs-filtering, reason)`. -/
def errorPagePatterns : List String :=
  ["404 | Fox News",
   "It seems you clicked on a bad link",
   "Something has gone wrong",
   "404 Not Found",
   "Page Not Found"]

def isLowQuality (content : String) : Bool × String :=
  if content = "" then (true, "empty_content")
  else
    match errorPagePatterns.find? (fun p => isInfix p.data content.data) with
    | some p => (true, "match_pattern:" ++ p)
    | none =>
      let lines := (pySplitlines content.data).filter (fun l => pyStrip l ≠ [])
      if lines.length < 10 then (true, "line_count<10") else (false, "")

/-- The raw dict returned by one tool call (`WebScrapingJinaTool.__call__`
or `GoliathTool.__call__`), restricted to the keys the orchestrator reads;
a field is `some` exactly when the key is present. -/
structure RawResp where
  error : Option String := none
  success : Option Bool := none
  title : Option String := none
  content : Option String := none
  publish_time : Option String := none
  fetched_publish_time : Option String := none
deriving DecidableEq, Repr

/-- The normalized fetch result. -/
structure Norm where
  title : String
  content : String
  publish_time : String
deriving DecidableEq, Repr

/-- `normalize(data)`: `data.get('publish_time','') or
data.get('fetched_publish_time','')` takes the second operand when the
first is falsy. -/
def normalize (d : RawResp) : Norm :=
  { title := d.title.getD ""
    content := d.content.getD ""
    publish_time :=
      if d.publish_time.getD "" ≠ "" then d.publish_time.getD ""
      else d.fetched_publish_time.getD "" }

/-- `try_jina(url)` applied to the tool's response: `'error' in d` is a key
presence test, and the reported message is the key's value. -/
def tryJina (d : RawResp) : Except String Norm :=
  match d.error with
  | some e => .error e
  | none => .ok (normalize d)

/-- `try_goliath(url)` applied to the tool's response: fails when
`not d.get('success') or d.get('error')` (truthiness of both), with message
`d.get('error', 'goliath_error')`.  The `g_tool is None` branch is dead
(the tool is always built, since `--fetcher` only accepts the two engine
names) and is not modelled. -/
def tryGoliath (d : RawResp) : Except String Norm :=
  if ¬ (d.success.getD false) ∨ (d.error.getD "") ≠ "" then
    .error (d.error.getD "goliath_error")
  else .ok (normalize d)

/-- The two fetch engines of one round, as response oracles. -/
structure Tools where
  jina : String → RawResp
  goliath : String → RawResp

/-- One recorded attempt `(step label, engine, url, success, error)`. -/
structure Attempt where
  step : String
  engine : String
  url : String
  success : Bool
  error : String
deriving DecidableEq, Repr

inductive FetchRes where
  | ok (norm : Norm) (used : String) (atts : List Attempt)
  | failed (atts : List Attempt)
deriving DecidableEq, Repr

def FetchRes.atts : FetchRes → List Attempt
  | .ok _ _ a => a
  | .failed a => a

/-- The ordered `(step label, engine, url)` sequence of `fetch_with_order`:
archive-first with both engines when a truthy `archive_url` is present,
otherwise the primary url with both engines. -/
def fetchSequence (r : CRec) : List (String × String × String) :=
  let urlMain := asStr (dictGet r "url")
  let archive := dictGet r "archive_url"
  if truthyOpt archive then
    let a := asStr archive
    [("jina_archive", "jina", a), ("goliath_archive", "goliath", a),
     ("jina_main", "jina", urlMain), ("goliath_main", "goliath", urlMain)]
  else
    [("jina_main", "jina", urlMain), ("goliath_main", "goliath", urlMain)]

/-- The step-label → `fetcher_used` normalization of `fetch_with_order`. -/
def labelUsed (l : String) : String :=
  if l = "goliath_archive" then "goliath(archive)"
  else if l = "jina_archive" then "jina(archive)"
  else if l = "jina_main" then "jina"
  else if l = "goliath_main" then "goliath"
  else l

/-- The walk of the attempt chain: stop at the first success, record every
attempt. -/
def fetchWalk (tools : Tools) : List (String × String × String) → List Attempt → FetchRes
  | [], atts => .failed atts
  | (lab, eng, url) :: rest, atts =>
    match (if eng = "jina" then tryJina (tools.jina url) else tryGoliath (tools.goliath url)) with
    | .ok norm => .ok norm (labelUsed lab) (atts ++ [⟨lab, eng, url, true, ""⟩])
    | .error e => fetchWalk tools rest (atts ++ [⟨lab, eng, url, false, e⟩])

/-- `fetch_with_order(ref)`. -/
def fetchWithOrder (tools : Tools) (r : CRec) : FetchRes :=
  fetchWalk tools (fetchSequence r) []

/-- Observable side effects of one orchestrator run. -/
inductive Ev where
  | fetch (engine : String) (url : String)
  | writePage (path : String) (content : String)
  | saveStore (lines : List String)
deriving DecidableEq, Repr

def Ev.isFetch : Ev → Bool
  | .fetch _ _ => true
  | _ => false

def Ev.isWritePage : Ev → Bool
  | .writePage _ _ => true
  | _ => false

def Ev.isSaveStore : Ev → Bool
  | .saveStore _ => true
  | _ => false

def attemptEvs (atts : List Attempt) : List Ev :=
  atts.map (fun a => Ev.fetch a.engine a.url)

/-- The command-line arguments of `fetch_reference_pages.main` that affect
the modelled behaviour. -/
structure Args where
  start : Int
  endOpt : Option Int
  force : Bool
  recordAttempts : Bool
  skipExists : Bool
  outputDir : String
deriving Repr

/-- `save_markdown(reference, fetched, output_dir, line_no, skip_exists)`:
paths are `output_dir/<slug>.md`; an existing file is kept when
`skip_exists`; the written body is the title heading followed by the
fetched content (the `'error' in fetched` branch cannot trigger here, as
`normalize` never produces an `error` key).  `fs` tells which paths
already exist. -/
def saveMarkdown (fs : String → Bool) (ref : CRec) (fetched : Norm)
    (outputDir : String) (skipExists : Bool) : String × List Ev :=
  let title :=
    if truthyOpt (dictGet ref "title") then asStr (dictGet ref "title")
    else if fetched.title ≠ "" then fetched.title
    else "Untitled"
  let slug := String.mk (slugify title.data)
  let path := outputDir ++ "/" ++ slug ++ ".md"
  if skipExists ∧ fs path then (path, [])
  else
    let body := ("# " ++ title ++ "\n") ++ "\n" ++
      (String.mk (pyRStrip fetched.content.data) ++ "\n")
    (path, [Ev.writePage path body])

/-- `load_references(jsonl_path)`: strip each line, skip blank lines, and
put a `json_decode_error` placeholder record in place of a line that does
not parse.  `loads` is the external `json.loads`. -/
def loadReferences (loads : String → Option CRec) (fileLines : List String) : List CRec :=
  fileLines.foldr
    (fun line acc =>
      let stripped := String.mk (pyStrip line.data)
      if stripped = "" then acc
      else
        (match loads stripped with
         | some d => d
         | none => [("error", .s "json_decode_error"), ("raw", .s stripped)]) :: acc)
    []

/-- `save_references(jsonl_path, refs)`: the lines written to the store
(one serialized record per line; the temp-file-and-replace dance is I/O
and is represented by the emitted `saveStore` event).  `dumps` is the
external `json.dumps`, which never emits a raw newline. -/
def saveReferencesLines (dumps : CRec → String) (refs : List CRec) : List String :=
  refs.map dumps

/-- How the processing of one record ended. -/
inductive RecOutcome where
  | fetchFailed
  | lowQuality
  | saved
deriving DecidableEq, Repr

structure ProcRes where
  ref : CRec
  events : List Ev
  outcome : RecOutcome
deriving DecidableEq, Repr

def maxFilterRetry : Nat := 3

def attemptLog (round : Nat) (atts : List Attempt) : List LogEntry :=
  atts.map (fun a => ⟨round, a.step, a.engine, a.url, a.success, a.error⟩)

/-- The `while True` retry loop of `main` for one record.  `fa` is the
source's `filter_attempts`; the first argument is the structural fuel
`maxFilterRetry - fa`, so the loop re-enters only under the source's guard
`filter_attempts < max_filter_retry` and the zero-fuel arm is
unreachable.  `roundTools fa` are the engines answering the round that
starts with `filter_attempts = fa`. -/
def processGo (roundTools : Nat → Tools) (args : Args) (fs : String → Bool) :
    Nat → Nat → List LogEntry → CRec → ProcRes
  | roundsLeft, fa, agg, ref =>
    match fetchWithOrder (roundTools fa) ref with
    | .failed atts =>
      let agg1 := if args.recordAttempts then agg ++ attemptLog (fa + 1) atts else agg
      let ref1 := if args.recordAttempts then dictSet ref "attempt_log" (.log agg1) else ref
      ⟨ref1, attemptEvs atts, .fetchFailed⟩
    | .ok norm used atts =>
      let fr := isLowQuality norm.content
      let agg1 := if args.recordAttempts then agg ++ attemptLog (fa + 1) atts else agg
      if fr.1 then
        if fa + 1 < maxFilterRetry then
          match roundsLeft with
          | rl + 1 =>
            let res := processGo roundTools args fs rl (fa + 1) agg1 ref
            ⟨res.ref, attemptEvs atts ++ res.events, res.outcome⟩
          | 0 => ⟨ref, attemptEvs atts, .lowQuality⟩
        else
          let ref1 := dictSet ref "scraped" (.b true)
          let ref2 := dictSet ref1 "fetcher_used"
            (.s (if used ≠ "" then used ++ "(low_quality)" else "low_quality"))
          let ref3 := dictSet ref2 "filter_reason" (.s fr.2)
          let ref4 := if args.recordAttempts then dictSet ref3 "attempt_log" (.log agg1) else ref3
          ⟨ref4, attemptEvs atts, .lowQuality⟩
      else
        let ref1 := dictSet ref "scraped" (.b true)
        let ref2 := dictSet ref1 "fetcher_used" (.s used)
        let ref3 := if args.recordAttempts then dictSet ref2 "attempt_log" (.log agg1) else ref2
        let pe := saveMarkdown fs ref3 norm args.outputDir args.skipExists
        ⟨ref3, attemptEvs atts ++ pe.2, .saved⟩

/-- The run state threaded through the record loop of `main`. -/
structure RunSt where
  refs : List CRec
  events : List Ev
  total : Nat
  succ : Nat
  failed : Nat
deriving DecidableEq, Repr

/-- The external collaborators of one run: the engines (per store line and
filter round), the page-file system, and the JSON codec. -/
structure Env where
  tools : Int → Nat → Tools
  fs : String → Bool
  loads : String → Option CRec
  dumps : CRec → String

/-- `refs[idx - 1]` for a 1-based line number `idx` (total, with the empty
record as the out-of-range default; the range clamping keeps every
processed index in bounds). -/
def recAt (refs : List CRec) (idx : Int) : CRec := refs.getD (idx - 1).toNat []

/-- In-place update of `refs[idx - 1]`. -/
def setAt (refs : List CRec) (idx : Int) (r : CRec) : List CRec :=
  refs.set (idx - 1).toNat r

/-- The record loop of `main` over the 1-based line numbers: skip a record
with no truthy `url` (counted failed), skip an already-scraped record
unless `--force`, otherwise run the retry loop, write the record back at
its position and rewrite the whole store. -/
def mainLoop (env : Env) (args : Args) : List Int → RunSt → RunSt
  | [], st => st
  | idx :: rest, st =>
    let ref := recAt st.refs idx
    let st1 := { st with total := st.total + 1 }
    if ¬ truthyOpt (dictGet ref "url") then
      mainLoop env args rest { st1 with failed := st1.failed + 1 }
    else if dictGet ref "scraped" = some (.b true) ∧ args.force = false then
      mainLoop env args rest st1
    else
      let pr := processGo (env.tools idx) args env.fs maxFilterRetry 0 [] ref
      let refs2 := setAt st1.refs idx pr.ref
      let st2 :=
        match pr.outcome with
        | .fetchFailed => { st1 with failed := st1.failed + 1 }
        | _ => { st1 with succ := st1.succ + 1 }
      mainLoop env args rest
        { st2 with
          refs := refs2
          events := st1.events ++ pr.events ++
            [Ev.saveStore (saveReferencesLines env.dumps refs2)] }

/-- `start = args.start if args.start >= 1 else 1`. -/
def clampStart (s : Int) : Int := if 1 ≤ s then s else 1

/-- `end = args.end if args.end is not None else len(refs)` followed by
`end = min(end, len(refs))`. -/
def clampEnd (e? : Option Int) (n : Nat) : Int := min (e?.getD (n : Int)) (n : Int)

/-- `range(start, end + 1)` over the integers. -/
def intRange (a b : Int) : List Int :=
  (List.range (b + 1 - a).toNat).map (fun (k : Nat) => a + (k : Int))

/-- One invocation of `fetch_reference_pages.main` on the given store
lines: load, clamp the range, process. -/
def mainRun (env : Env) (args : Args) (fileLines : List String) : RunSt :=
  let refs := loadReferences env.loads fileLines
  let s := clampStart args.start
  let e := clampEnd args.endOpt refs.length
  mainLoop env args (intRange s e) ⟨refs, [], 0, 0, 0⟩

/-! ## Concrete fixtures used by the witnesses -/

/-- Engines that always fail (a connection-refused world). -/
def wToolsFail : Tools :=
  ⟨fun _ => { error := some "connection_error" }, fun _ => { error := some "goliath_down" }⟩

/-- Engines whose `jina` succeeds but returns a four-character page (below
the ten-line quality floor). -/
def wToolsLowQ : Tools :=
  ⟨fun _ => { title := some "T", content := some "stub" }, fun _ => { error := some "e" }⟩

/-- A concrete stand-in for `json.loads`, defined on two specific store
lines. -/
def wLoads : String → Option CRec := fun s =>
  if s = "A" then some [("title", .s "Ref A"), ("url", .s "https://site.example/a")]
  else if s = "B" then some [("url", .s "https://site.example/b"), ("scraped", .b true)]
  else none

/-- A concrete stand-in for `json.dumps`. -/
def wDumps : CRec → String := fun _ => "rec"

def wEnvFail : Env := ⟨fun _ _ => wToolsFail, fun _ => false, wLoads, wDumps⟩

def wEnvLowQ : Env := ⟨fun _ _ => wToolsLowQ, fun _ => false, wLoads, wDumps⟩

def wArgs : Args :=
  { start := 1, endOpt := none, force := false, recordAttempts := false,
    skipExists := true, outputDir := "out" }

/-! ## Helper lemmas -/

theorem mem_intRange (a b idx : Int) : idx ∈ intRange a b ↔ a ≤ idx ∧ idx ≤ b := by
  simp only [intRange, List.mem_map, List.mem_range]
  constructor
  · rintro ⟨k, hk, rfl⟩
    omega
  · rintro ⟨h1, h2⟩
    exact ⟨(idx - a).toNat, by omega, by omega⟩

theorem intRange_empty (a b : Int) (h : b < a) : intRange a b = [] := by
  simp only [intRange]
  rw [show (b + 1 - a).toNat = 0 by omega]
  rfl

theorem find?_map_setKey (r : CRec) (k : String) (v : JVal) :
    ((r.map (fun kv => if kv.1 = k then (k, v) else kv)).find? (fun kv => kv.1 = k)) =
      if (r.find? (fun kv => kv.1 = k)).isSome then some (k, v) else none := by
  induction r with
  | nil => simp
  | cons hd tl ih =>
    by_cases hk : hd.1 = k
    · rw [List.map_cons, if_pos hk, List.find?_cons_of_pos _ (by simp),
        List.find?_cons_of_pos _ (by simpa using hk)]
      simp
    · rw [List.map_cons, if_neg hk, List.find?_cons_of_neg _ (by simpa using hk),
        List.find?_cons_of_neg _ (by simpa using hk), ih]

theorem find?_map_setKey_ne (r : CRec) (k k' : String) (v : JVal) (h : k' ≠ k) :
    ((r.map (fun kv => if kv.1 = k then (k, v) else kv)).find? (fun kv => kv.1 = k')).map (·.2) =
      (r.find? (fun kv => kv.1 = k')).map (·.2) := by
  induction r with
  | nil => simp
  | cons hd tl ih =>
    by_cases hk : hd.1 = k
    · have h2 : ¬ (hd.1 = k') := by
        rw [hk]
        exact fun hc => h hc.symm
      rw [List.map_cons, if_pos hk,
        List.find?_cons_of_neg _ (by simpa using fun hc : k = k' => h hc.symm),
        List.find?_cons_of_neg _ (by simpa using h2)]
      exact ih
    · by_cases hk' : hd.1 = k'
      · rw [List.map_cons, if_neg hk, List.find?_cons_of_pos _ (by simpa using hk'),
          List.find?_cons_of_pos _ (by simpa using hk')]
      · rw [List.map_cons, if_neg hk, List.find?_cons_of_neg _ (by simpa using hk'),
          List.find?_cons_of_neg _ (by simpa using hk')]
        exact ih

theorem dictGet_dictSet_self (r : CRec) (k : String) (v : JVal) :
    dictGet (dictSet r k v) k = some v := by
  unfold dictGet dictSet
  split
  · rename_i h
    rw [find?_map_setKey]
    simp [h]
  · rename_i h
    have hf : r.find? (fun kv => kv.1 = k) = none := by
      cases hfind : r.find? (fun kv => kv.1 = k) with
      | none => rfl
      | some x =>
        rw [hfind] at h
        simp at h
    rw [List.find?_append, hf]
    rw [List.find?_cons_of_pos _ (by simp)]
    rfl

theorem dictGet_dictSet_ne (r : CRec) (k k' : String) (v : JVal) (h : k' ≠ k) :
    dictGet (dictSet r k v) k' = dictGet r k' := by
  unfold dictGet dictSet
  split
  · exact find?_map_setKey_ne r k k' v h
  · rw [List.find?_append]
    cases hf : r.find? (fun kv => kv.1 = k') with
    | some x => simp
    | none =>
      rw [List.find?_cons_of_neg _ (by simpa using fun hc : k = k' => h hc.symm)]
      simp

/-- Any reason produced by a rejecting quality gate is non-empty. -/
theorem isLowQuality_reason_ne (c : String) (r : String)
    (h : isLowQuality c = (true, r)) : r ≠ "" := by
  unfold isLowQuality at h
  by_cases hc : c = ""
  · rw [if_pos hc] at h
    simp only [Prod.mk.injEq] at h
    rw [← h.2]
    decide
  · rw [if_neg hc] at h
    cases hfind : errorPagePatterns.find? (fun p => isInfix p.data c.data) with
    | some p =>
      rw [hfind] at h
      simp only [Prod.mk.injEq] at h
      intro hemp
      rw [← h.2] at hemp
      have hdata := congrArg String.data hemp
      rw [String.data_append] at hdata
      simp at hdata
    | none =>
      rw [hfind] at h
      simp only at h
      by_cases hl : ((pySplitlines c.data).filter (fun l => pyStrip l ≠ [])).length < 10
      · rw [if_pos hl] at h
        simp only [Prod.mk.injEq] at h
        rw [← h.2]
        decide
      · rw [if_neg hl] at h
        simp at h

/-- A successful chain walk reports the normalized label of a step of the
sequence. -/
theorem fetchWalk_ok_used (tools : Tools) :
    ∀ (seq : List (String × String × String)) (acc : List Attempt) (n : Norm)
      (u : String) (a : List Attempt),
      fetchWalk tools seq acc = .ok n u a → ∃ p ∈ seq, u = labelUsed p.1 := by
  intro seq
  induction seq with
  | nil => intro acc n u a h; simp [fetchWalk] at h
  | cons hd tl ih =>
    intro acc n u a h
    obtain ⟨lab, eng, url⟩ := hd
    unfold fetchWalk at h
    split at h
    · simp only [FetchRes.ok.injEq] at h
      exact ⟨(lab, eng, url), by simp, h.2.1.symm⟩
    · obtain ⟨p, hp, hu⟩ := ih _ _ _ _ h
      exact ⟨p, by simp [hp], hu⟩

/-- A successful `fetch_with_order` reports a non-empty engine label. -/
theorem fetchWithOrder_used_ne (tools : Tools) (r : CRec) (n : Norm)
    (u : String) (a : List Attempt)
    (h : fetchWithOrder tools r = .ok n u a) : u ≠ "" := by
  obtain ⟨p, hp, hu⟩ := fetchWalk_ok_used tools (fetchSequence r) [] n u a h
  have hlab : p.1 = "jina_archive" ∨ p.1 = "goliath_archive" ∨
      p.1 = "jina_main" ∨ p.1 = "goliath_main" := by
    by_cases harch : truthyOpt (dictGet r "archive_url") = true
    · simp only [fetchSequence, harch, if_true, List.mem_cons,
        List.not_mem_nil, or_false] at hp
      rcases hp with h1 | h1 | h1 | h1 <;> subst h1 <;> simp
    · simp only [fetchSequence, harch, if_false, Bool.not_eq_true,
        List.mem_cons, List.not_mem_nil, or_false] at hp
      have harch' : truthyOpt (dictGet r "archive_url") = false := by
        cases hb : truthyOpt (dictGet r "archive_url") with
        | true => exact absurd hb harch
        | false => rfl
      simp only [harch', Bool.false_eq_true, if_false, List.mem_cons,
        List.not_mem_nil, or_false] at hp
      rcases hp with h1 | h1 <;> subst h1 <;> simp
  subst hu
  rcases hlab with h1 | h1 | h1 | h1 <;> rw [h1] <;> decide

/-- The walked attempts always form an initial segment of the planned
chain (the walk stops at the first success). -/
theorem fetchWalk_atts_chain (tools : Tools) :
    ∀ (seq : List (String × String × String)) (acc : List Attempt),
      ∃ rest, (fetchWalk tools seq acc).atts.map (fun a => (a.engine, a.url)) ++ rest =
        acc.map (fun a => (a.engine, a.url)) ++ seq.map (fun s => (s.2.1, s.2.2)) := by
  intro seq
  induction seq with
  | nil =>
    intro acc
    exact ⟨[], by simp [fetchWalk, FetchRes.atts]⟩
  | cons hd tl ih =>
    intro acc
    obtain ⟨lab, eng, url⟩ := hd
    unfold fetchWalk
    split
    · refine ⟨tl.map (fun s => (s.2.1, s.2.2)), ?_⟩
      simp [FetchRes.atts]
    · rename_i e _
      obtain ⟨rest, hrest⟩ := ih (acc ++ [⟨lab, eng, url, false, e⟩])
      refine ⟨rest, ?_⟩
      rw [hrest]
      simp

/-! ## The claims -/

/-- C1: the spec's worked example
`1. John Smith. [Example Title](https://example.com/a) (January 5, 2020). Example News. Retrieved March 1, 2021.`
is claimed to yield a record with `title="Example Title"`, `author="John
Smith"`, etc.; evaluating the Field Extractor at this entry shows the code
returns NO record: the only content link sits before the publish date, so
all four title-selection tiers fail and the entry is discarded —
contradicting both the spec and the function's own documented rules
(title = first content link, author = text before the date). -/
theorem c1_example_entry_rejected :
    buildReferenceItems
      ["1. John Smith. [Example Title](https://example.com/a) (January 5, 2020). Example News. Retrieved March 1, 2021.".data]
      = [] := by
  decide

/-- C2: with the fixed engine assignment A = `jina`, B = `goliath`, a
record with truthy `archive_url` yields the planned chain
[A(archive), B(archive), A(url), B(url)], a record without one yields
[A(url), B(url)]; and for any engines the attempts actually tried are an
initial segment of that chain, so when `archive_url` is present the first
two attempted (engine, url) pairs use it, and otherwise the first
attempted url is the primary url. -/
theorem c2_fetch_chain_order (r : CRec) :
    (truthyOpt (dictGet r "archive_url") = true →
      (fetchSequence r).map (fun s => (s.2.1, s.2.2)) =
        [("jina", asStr (dictGet r "archive_url")),
         ("goliath", asStr (dictGet r "archive_url")),
         ("jina", asStr (dictGet r "url")),
         ("goliath", asStr (dictGet r "url"))]) ∧
    (truthyOpt (dictGet r "archive_url") = false →
      (fetchSequence r).map (fun s => (s.2.1, s.2.2)) =
        [("jina", asStr (dictGet r "url")),
         ("goliath", asStr (dictGet r "url"))]) ∧
    (∀ tools : Tools, ∃ restChain,
      ((fetchWithOrder tools r).atts.map (fun a => (a.engine, a.url))) ++ restChain =
        (fetchSequence r).map (fun s => (s.2.1, s.2.2))) := by
  refine ⟨fun h => ?_, fun h => ?_, fun tools => ?_⟩
  · simp [fetchSequence, h]
  · simp [fetchSequence, h]
  · obtain ⟨rest, hrest⟩ := fetchWalk_atts_chain tools (fetchSequence r) []
    exact ⟨rest, by simpa using hrest⟩

/-- `archive_url` lookup on a built item: the optional archive field, the
other keys being distinct. -/
theorem dictGet_mkItem_archive (title url : List Char) (isExt : Bool)
    (author source : List Char) (archive : Option (List Char)) (pub ret : List Char) :
    dictGet (mkItem title url isExt author source archive pub ret) "archive_url" =
      match archive with
      | some a => if a ≠ [] then some (.s (String.mk a)) else none
      | none => none := by
  unfold mkItem dictGet
  cases archive with
  | none =>
    split_ifs <;> simp [List.find?_append, List.find?]
  | some a =>
    by_cases ha : a = []
    · split_ifs <;> simp [ha, List.find?_append, List.find?]
    · split_ifs <;> simp [ha, List.find?_append, List.find?]

/-- C6 counterexample: in the entry
`Smith. (January 5, 2020). [Archived](https://web.archive.org/y). Retrieved March 1, 2021.`
the only content link has text exactly `Archived`, yet its url ends up as
the produced record's primary `url` field (the link is selected as the
title link), falsifying "never used as the record's primary url field". -/
theorem c6_archived_link_becomes_primary_url_cex :
    processEntry "Smith. (January 5, 2020). [Archived](https://web.archive.org/y). Retrieved March 1, 2021.".data =
      some [("title", .s "Archived"), ("url", .s "https://web.archive.org/y"),
            ("is_external", .b true), ("author", .s "Smith"), ("source", .s "Smith"),
            ("archive_url", .s "https://web.archive.org/y"),
            ("publish_date", .s "January 5, 2020"),
            ("retrieved_date", .s "Retrieved March 1, 2021.")] ∧
    contentLinksOf "Smith. (January 5, 2020). [Archived](https://web.archive.org/y). Retrieved March 1, 2021.".data =
      [("Archived".data, "https://web.archive.org/y".data)] ∧
    pyLower "Archived".data = "archived".data := by
  refine ⟨by decide, by decide, by decide⟩

/-- C6 amended: when the Field Extractor produces a record, the
`archive_url` field holds exactly the url of the FIRST content link whose
text lower-cases to `archived` (absent when there is no such link); the
url field is never overwritten with it afterwards, but the `Archived` link
itself may be selected as the title link, in which case its url is also
the record's primary url. -/
theorem c6_archive_url_recorded (e : List Char) (rec : CRec)
    (h : processEntry e = some rec) :
    dictGet rec "archive_url" =
      match (contentLinksOf e).find? (fun tu => pyLower tu.1 = "archived".data) with
      | some tu => if tu.2 ≠ [] then some (.s (String.mk tu.2)) else none
      | none => none := by
  unfold processEntry at h
  split at h
  · simp at h
  · split at h
    · simp at h
    · split at h
      · simp at h
      · split at h
        · simp at h
        · split at h
          · simp at h
          · rw [← Option.some.inj h]
            rw [dictGet_mkItem_archive]
            unfold archiveOf
            cases hfind : (contentLinksOf e).find? (fun tu => pyLower tu.1 = "archived".data) <;>
              simp [hfind]

/-- Witness for C6's amended statement at the concrete entry above. -/
theorem c6_archive_url_recorded_witness :
    dictGet [("title", JVal.s "Archived"), ("url", JVal.s "https://web.archive.org/y"),
        ("is_external", JVal.b true), ("author", JVal.s "Smith"), ("source", JVal.s "Smith"),
        ("archive_url", JVal.s "https://web.archive.org/y"),
        ("publish_date", JVal.s "January 5, 2020"),
        ("retrieved_date", JVal.s "Retrieved March 1, 2021.")] "archive_url" =
      some (JVal.s "https://web.archive.org/y") :=
  c6_archive_url_recorded
    "Smith. (January 5, 2020). [Archived](https://web.archive.org/y). Retrieved March 1, 2021.".data
    [("title", .s "Archived"), ("url", .s "https://web.archive.org/y"),
     ("is_external", .b true), ("author", .s "Smith"), ("source", .s "Smith"),
     ("archive_url", .s "https://web.archive.org/y"),
     ("publish_date", .s "January 5, 2020"),
     ("retrieved_date", .s "Retrieved March 1, 2021.")] (by decide)

/-- C7 counterexample: in the document
`* [a link](https://example.com/1)` / `## References` / `## Other` /
`* [b link](https://example.com/2)` a References heading is found but its
collection rule collects no lines (the next line is an unrelated heading),
no Bibliography or numbered start exists — so all rules collect nothing —
yet the Block Locator returns `[]` without applying the backward-scan
fallback, which would have collected the trailing bulleted link.  This
falsifies "whenever the rules collect no lines, the fallback is
applied". -/
theorem c7_rules_empty_but_no_fallback_cex :
    scanIndices (pySplitlines "* [a link](https://example.com/1)\n## References\n## Other\n* [b link](https://example.com/2)".data) =
      ⟨some 1, none, none, none⟩ ∧
    parseReferencesBlock "* [a link](https://example.com/1)\n## References\n## Other\n* [b link](https://example.com/2)".data = [] ∧
    fallbackLines (pySplitlines "* [a link](https://example.com/1)\n## References\n## Other\n* [b link](https://example.com/2)".data) =
      ["* [b link](https://example.com/2)".data] :=
  ⟨by decide, by decide, by decide⟩

/-- C7 amended: the backward-scan fallback is applied exactly when the
scan FINDS no References heading, no Bibliography heading and no
numbered-footnote-list start (not merely when those rules collect no
lines); in that case the Block Locator's result is precisely the fallback
scan — lines collected from the end of the document backward while they
look like bulleted Markdown links or contain a `wikimedia` marker,
stopping at a heading or a long bracket-free plain-text line, returned in
document order. -/
theorem c7_fallback_iff_no_markers (md : List Char)
    (h1 : (scanIndices (pySplitlines md)).ref? = none)
    (h2 : (scanIndices (pySplitlines md)).bib? = none)
    (h3 : (scanIndices (pySplitlines md)).num? = none) :
    parseReferencesBlock md = fallbackLines (pySplitlines md) := by
  unfold parseReferencesBlock
  rw [if_pos ⟨h1, h2, h3⟩]

/-- Witness for C7's amended statement on a document with no reference
markers at all. -/
theorem c7_fallback_iff_no_markers_witness :
    parseReferencesBlock "Intro line that is long enough to stop the scan here.\n* [b link](https://example.com/2)".data =
      fallbackLines (pySplitlines "Intro line that is long enough to stop the scan here.\n* [b link](https://example.com/2)".data) :=
  c7_fallback_iff_no_markers
    "Intro line that is long enough to stop the scan here.\n* [b link](https://example.com/2)".data
    (by decide) (by decide) (by decide)

/-- Witness for C2 at a concrete record carrying both urls, and at one
without an archive url. -/
theorem c2_fetch_chain_order_witness :
    (fetchSequence [("url", .s "https://u.example/p"), ("archive_url", .s "https://a.example/q")]).map
        (fun s => (s.2.1, s.2.2)) =
      [("jina", "https://a.example/q"), ("goliath", "https://a.example/q"),
       ("jina", "https://u.example/p"), ("goliath", "https://u.example/p")] ∧
    (fetchSequence [("url", .s "https://u.example/p")]).map (fun s => (s.2.1, s.2.2)) =
      [("jina", "https://u.example/p"), ("goliath", "https://u.example/p")] :=
  ⟨(c2_fetch_chain_order [("url", .s "https://u.example/p"),
      ("archive_url", .s "https://a.example/q")]).1 (by decide),
   (c2_fetch_chain_order [("url", .s "https://u.example/p")]).2.1 (by decide)⟩

/-- Attempt events are engine invocations, never page-file writes. -/
theorem attemptEvs_not_writePage (atts : List Attempt) :
    ∀ ev ∈ attemptEvs atts, ev.isWritePage = false := by
  intro ev hev
  simp only [attemptEvs, List.mem_map] at hev
  obtain ⟨a, _, rfl⟩ := hev
  rfl

/-- The skip loop: when every record visited is already scraped and the
force flag is unset, the loop touches neither the records nor the event
trace. -/
theorem mainLoop_all_scraped (env : Env) (args : Args) (hforce : args.force = false) :
    ∀ (idxs : List Int) (st : RunSt),
      (∀ idx ∈ idxs, dictGet (recAt st.refs idx) "scraped" = some (.b true)) →
      (mainLoop env args idxs st).refs = st.refs ∧
      (mainLoop env args idxs st).events = st.events := by
  intro idxs
  induction idxs with
  | nil => intro st _; exact ⟨rfl, rfl⟩
  | cons idx rest ih =>
    intro st hall
    simp only [mainLoop]
    by_cases hurl : truthyOpt (dictGet (recAt st.refs idx) "url") = true
    · rw [if_neg (by simp [hurl])]
      rw [if_pos ⟨hall idx (by simp), hforce⟩]
      exact ih _ (fun i hi => hall i (by simp [hi]))
    · rw [if_pos (by simpa using hurl)]
      exact ih _ (fun i hi => hall i (by simp [hi]))

/-- C4: when the force flag is unset and every record in the selected
(clamped) line range already has `scraped = true`, a run invokes no fetch
engine, writes no file, performs no store rewrite (the event trace is
empty), and leaves every record of the store with identical field values. -/
theorem c4_all_scraped_noop (env : Env) (args : Args) (fileLines : List String)
    (hforce : args.force = false)
    (hall : ∀ idx ∈ intRange (clampStart args.start)
        (clampEnd args.endOpt (loadReferences env.loads fileLines).length),
      dictGet (recAt (loadReferences env.loads fileLines) idx) "scraped" = some (.b true)) :
    (mainRun env args fileLines).refs = loadReferences env.loads fileLines ∧
    (mainRun env args fileLines).events = [] := by
  have h := mainLoop_all_scraped env args hforce
    (intRange (clampStart args.start)
      (clampEnd args.endOpt (loadReferences env.loads fileLines).length))
    ⟨loadReferences env.loads fileLines, [], 0, 0, 0⟩ hall
  simpa [mainRun] using h

/-- Witness for C4: one already-scraped record, full default range. -/
theorem c4_all_scraped_noop_witness :
    (mainRun wEnvFail wArgs ["B"]).refs = loadReferences wLoads ["B"] ∧
    (mainRun wEnvFail wArgs ["B"]).events = [] :=
  c4_all_scraped_noop wEnvFail wArgs ["B"] rfl (by decide)

/-- C10: the orchestrator clamps `start` to at least 1 and `end` to at
most the record count; every visited 1-based index stays inside the
loaded record list; and when the clamped range is empty the run processes
zero records, makes no fetch attempt and never rewrites the store (its
result is the loaded store with an empty event trace and zero
counters). -/
theorem c10_range_clamping_safe (env : Env) (args : Args) (fileLines : List String) :
    1 ≤ clampStart args.start ∧
    clampEnd args.endOpt (loadReferences env.loads fileLines).length ≤
      ((loadReferences env.loads fileLines).length : Int) ∧
    (∀ idx ∈ intRange (clampStart args.start)
        (clampEnd args.endOpt (loadReferences env.loads fileLines).length),
      1 ≤ idx ∧ (idx - 1).toNat < (loadReferences env.loads fileLines).length) ∧
    (clampEnd args.endOpt (loadReferences env.loads fileLines).length < clampStart args.start →
      intRange (clampStart args.start)
        (clampEnd args.endOpt (loadReferences env.loads fileLines).length) = [] ∧
      mainRun env args fileLines = ⟨loadReferences env.loads fileLines, [], 0, 0, 0⟩) := by
  have hs : 1 ≤ clampStart args.start := by
    unfold clampStart
    split_ifs with h
    · exact h
    · omega
  have he : clampEnd args.endOpt (loadReferences env.loads fileLines).length ≤
      ((loadReferences env.loads fileLines).length : Int) := min_le_right _ _
  refine ⟨hs, he, ?_, ?_⟩
  · intro idx hidx
    rw [mem_intRange] at hidx
    exact ⟨by omega, by omega⟩
  · intro hlt
    have hempty := intRange_empty _ _ hlt
    refine ⟨hempty, ?_⟩
    simp only [mainRun]
    rw [hempty]
    rfl

/-- Witness for C10 with `--start 5 --end 3` on a one-record store: the
clamped range is empty and the run is a no-op. -/
theorem c10_range_clamping_safe_witness :
    intRange (clampStart (5 : Int)) (clampEnd (some 3) (loadReferences wLoads ["A"]).length) = [] ∧
    mainRun wEnvFail { wArgs with start := 5, endOpt := some 3 } ["A"] =
      ⟨loadReferences wLoads ["A"], [], 0, 0, 0⟩ :=
  (c10_range_clamping_safe wEnvFail { wArgs with start := 5, endOpt := some 3 } ["A"]).2.2.2
    (by decide)

/-- C5: a record whose whole fetch chain fails in its first round is left
with every field unchanged except the optional `attempt_log`, its
`scraped` value untouched (so it stays eligible for a future run), no page
file is written among the step's fetch events, and the loop continues with
the remaining records (the failure is not terminal for the batch: the
step reduces to the loop on the rest, with only the failed counter and
the rewritten store recording the visit). -/
theorem c5_chain_failure_nonterminal (env : Env) (args : Args) (idx : Int)
    (rest : List Int) (st : RunSt) (atts : List Attempt)
    (hurl : truthyOpt (dictGet (recAt st.refs idx) "url") = true)
    (hskip : ¬ (dictGet (recAt st.refs idx) "scraped" = some (.b true) ∧ args.force = false))
    (hfail : fetchWithOrder (env.tools idx 0) (recAt st.refs idx) = .failed atts) :
    (∀ k, k ≠ "attempt_log" →
      dictGet (processGo (env.tools idx) args env.fs maxFilterRetry 0 [] (recAt st.refs idx)).ref k =
        dictGet (recAt st.refs idx) k) ∧
    dictGet (processGo (env.tools idx) args env.fs maxFilterRetry 0 [] (recAt st.refs idx)).ref
        "scraped" = dictGet (recAt st.refs idx) "scraped" ∧
    (∀ ev ∈ (processGo (env.tools idx) args env.fs maxFilterRetry 0 [] (recAt st.refs idx)).events,
      ev.isWritePage = false) ∧
    mainLoop env args (idx :: rest) st =
      mainLoop env args rest
        { refs := setAt st.refs idx
            (processGo (env.tools idx) args env.fs maxFilterRetry 0 [] (recAt st.refs idx)).ref
          events := st.events ++
            (processGo (env.tools idx) args env.fs maxFilterRetry 0 [] (recAt st.refs idx)).events ++
            [Ev.saveStore (saveReferencesLines env.dumps (setAt st.refs idx
              (processGo (env.tools idx) args env.fs maxFilterRetry 0 [] (recAt st.refs idx)).ref))]
          total := st.total + 1
          succ := st.succ
          failed := st.failed + 1 } := by
  have hgo : processGo (env.tools idx) args env.fs maxFilterRetry 0 [] (recAt st.refs idx) =
      ⟨(if args.recordAttempts then
          dictSet (recAt st.refs idx) "attempt_log" (.log (attemptLog 1 atts))
        else recAt st.refs idx), attemptEvs atts, .fetchFailed⟩ := by
    unfold processGo
    rw [hfail]
    by_cases hra : args.recordAttempts = true <;> simp [hra]
  refine ⟨?_, ?_, ?_, ?_⟩
  · intro k hk
    rw [hgo]
    by_cases hra : args.recordAttempts = true
    · simp only [hra, if_true]
      exact dictGet_dictSet_ne _ _ _ _ hk
    · simp [hra]
  · rw [hgo]
    by_cases hra : args.recordAttempts = true
    · simp only [hra, if_true]
      exact dictGet_dictSet_ne _ _ _ _ (by decide)
    · simp [hra]
  · rw [hgo]
    exact attemptEvs_not_writePage atts
  · simp only [mainLoop]
    rw [if_neg (by simp [hurl]), if_neg hskip]
    rw [hgo]

/-- Witness for C5: a one-record store against engines that always fail;
the record's `scraped` value (absent) is untouched. -/
theorem c5_chain_failure_nonterminal_witness :
    dictGet (processGo (wEnvFail.tools 1) wArgs wEnvFail.fs maxFilterRetry 0 []
        (recAt [[("url", JVal.s "https://site.example/a")]] 1)).ref "scraped" =
      dictGet (recAt [[("url", JVal.s "https://site.example/a")]] 1) "scraped" :=
  (c5_chain_failure_nonterminal wEnvFail wArgs 1 []
    ⟨[[("url", .s "https://site.example/a")]], [], 0, 0, 0⟩
    [⟨"jina_main", "jina", "https://site.example/a", false, "connection_error"⟩,
     ⟨"goliath_main", "goliath", "https://site.example/a", false, "goliath_down"⟩]
    (by decide) (by decide) (by decide)).2.1

/-- C3: a record with a url, not yet scraped, whose chain succeeds in each
of the three filter rounds but whose content the Quality Gate rejects
every time, ends with `scraped = true`, `fetcher_used` equal to the last
succeeding step's label suffixed with `(low_quality)`, `filter_reason`
equal to the gate's (non-empty) reason, and no page file written; the
loop then continues with the remaining records. -/
theorem c3_low_quality_exhausted (env : Env) (args : Args) (idx : Int)
    (rest : List Int) (st : RunSt) (n0 n1 n2 : Norm) (u0 u1 u2 r0 r1 r2 : String)
    (a0 a1 a2 : List Attempt)
    (hurl : truthyOpt (dictGet (recAt st.refs idx) "url") = true)
    (hskip : ¬ (dictGet (recAt st.refs idx) "scraped" = some (.b true) ∧ args.force = false))
    (h0 : fetchWithOrder (env.tools idx 0) (recAt st.refs idx) = .ok n0 u0 a0)
    (hl0 : isLowQuality n0.content = (true, r0))
    (h1 : fetchWithOrder (env.tools idx 1) (recAt st.refs idx) = .ok n1 u1 a1)
    (hl1 : isLowQuality n1.content = (true, r1))
    (h2 : fetchWithOrder (env.tools idx 2) (recAt st.refs idx) = .ok n2 u2 a2)
    (hl2 : isLowQuality n2.content = (true, r2)) :
    dictGet (processGo (env.tools idx) args env.fs maxFilterRetry 0 [] (recAt st.refs idx)).ref
        "scraped" = some (.b true) ∧
    dictGet (processGo (env.tools idx) args env.fs maxFilterRetry 0 [] (recAt st.refs idx)).ref
        "fetcher_used" = some (.s (u2 ++ "(low_quality)")) ∧
    dictGet (processGo (env.tools idx) args env.fs maxFilterRetry 0 [] (recAt st.refs idx)).ref
        "filter_reason" = some (.s r2) ∧
    r2 ≠ "" ∧
    (∀ ev ∈ (processGo (env.tools idx) args env.fs maxFilterRetry 0 [] (recAt st.refs idx)).events,
      ev.isWritePage = false) ∧
    mainLoop env args (idx :: rest) st =
      mainLoop env args rest
        { refs := setAt st.refs idx
            (processGo (env.tools idx) args env.fs maxFilterRetry 0 [] (recAt st.refs idx)).ref
          events := st.events ++
            (processGo (env.tools idx) args env.fs maxFilterRetry 0 [] (recAt st.refs idx)).events ++
            [Ev.saveStore (saveReferencesLines env.dumps (setAt st.refs idx
              (processGo (env.tools idx) args env.fs maxFilterRetry 0 [] (recAt st.refs idx)).ref))]
          total := st.total + 1
          succ := st.succ + 1
          failed := st.failed } := by
  have hu2 : u2 ≠ "" := fetchWithOrder_used_ne _ _ _ _ _ h2
  have hr2 : r2 ≠ "" := isLowQuality_reason_ne _ _ hl2
  have h2go : ∀ agg, processGo (env.tools idx) args env.fs 1 2 agg (recAt st.refs idx) =
      ⟨(if args.recordAttempts then
          dictSet (dictSet (dictSet (dictSet (recAt st.refs idx) "scraped" (.b true))
            "fetcher_used" (.s (if u2 ≠ "" then u2 ++ "(low_quality)" else "low_quality")))
            "filter_reason" (.s r2)) "attempt_log" (.log (agg ++ attemptLog 3 a2))
        else
          dictSet (dictSet (dictSet (recAt st.refs idx) "scraped" (.b true))
            "fetcher_used" (.s (if u2 ≠ "" then u2 ++ "(low_quality)" else "low_quality")))
            "filter_reason" (.s r2)),
        attemptEvs a2, .lowQuality⟩ := by
    intro agg
    unfold processGo
    rw [h2]
    by_cases hra : args.recordAttempts = true <;> simp [hra, hl2, maxFilterRetry]
  have h1go : ∀ agg, processGo (env.tools idx) args env.fs 2 1 agg (recAt st.refs idx) =
      ⟨(if args.recordAttempts then
          dictSet (dictSet (dictSet (dictSet (recAt st.refs idx) "scraped" (.b true))
            "fetcher_used" (.s (if u2 ≠ "" then u2 ++ "(low_quality)" else "low_quality")))
            "filter_reason" (.s r2)) "attempt_log"
            (.log ((if args.recordAttempts then agg ++ attemptLog 2 a1 else agg) ++ attemptLog 3 a2))
        else
          dictSet (dictSet (dictSet (recAt st.refs idx) "scraped" (.b true))
            "fetcher_used" (.s (if u2 ≠ "" then u2 ++ "(low_quality)" else "low_quality")))
            "filter_reason" (.s r2)),
        attemptEvs a1 ++ attemptEvs a2, .lowQuality⟩ := by
    intro agg
    unfold processGo
    rw [h1]
    by_cases hra : args.recordAttempts = true <;>
      simp [hra, hl1, maxFilterRetry, h2go]
  have hgo : processGo (env.tools idx) args env.fs maxFilterRetry 0 [] (recAt st.refs idx) =
      ⟨(if args.recordAttempts then
          dictSet (dictSet (dictSet (dictSet (recAt st.refs idx) "scraped" (.b true))
            "fetcher_used" (.s (if u2 ≠ "" then u2 ++ "(low_quality)" else "low_quality")))
            "filter_reason" (.s r2)) "attempt_log"
            (.log ((if args.recordAttempts then
                (if args.recordAttempts then [] ++ attemptLog 1 a0 else []) ++ attemptLog 2 a1
              else (if args.recordAttempts then [] ++ attemptLog 1 a0 else [])) ++ attemptLog 3 a2))
        else
          dictSet (dictSet (dictSet (recAt st.refs idx) "scraped" (.b true))
            "fetcher_used" (.s (if u2 ≠ "" then u2 ++ "(low_quality)" else "low_quality")))
            "filter_reason" (.s r2)),
        attemptEvs a0 ++ (attemptEvs a1 ++ attemptEvs a2), .lowQuality⟩ := by
    unfold processGo
    rw [h0]
    by_cases hra : args.recordAttempts = true <;>
      simp [hra, hl0, maxFilterRetry, h1go]
  have hbase_s : dictGet (dictSet (dictSet (dictSet (recAt st.refs idx) "scraped" (.b true))
      "fetcher_used" (.s (if u2 ≠ "" then u2 ++ "(low_quality)" else "low_quality")))
      "filter_reason" (.s r2)) "scraped" = some (.b true) := by
    rw [dictGet_dictSet_ne _ _ _ _ (by decide), dictGet_dictSet_ne _ _ _ _ (by decide),
      dictGet_dictSet_self]
  have hbase_f : dictGet (dictSet (dictSet (dictSet (recAt st.refs idx) "scraped" (.b true))
      "fetcher_used" (.s (if u2 ≠ "" then u2 ++ "(low_quality)" else "low_quality")))
      "filter_reason" (.s r2)) "fetcher_used" = some (.s (u2 ++ "(low_quality)")) := by
    rw [dictGet_dictSet_ne _ _ _ _ (by decide), dictGet_dictSet_self, if_pos hu2]
  have hbase_r : dictGet (dictSet (dictSet (dictSet (recAt st.refs idx) "scraped" (.b true))
      "fetcher_used" (.s (if u2 ≠ "" then u2 ++ "(low_quality)" else "low_quality")))
      "filter_reason" (.s r2)) "filter_reason" = some (.s r2) := by
    rw [dictGet_dictSet_self]
  refine ⟨?_, ?_, ?_, hr2, ?_, ?_⟩
  · rw [hgo]
    by_cases hra : args.recordAttempts = true
    · simp only [hra, if_true]
      rw [dictGet_dictSet_ne _ _ _ _ (by decide)]
      exact hbase_s
    · simp only [hra, Bool.false_eq_true, if_false]
      exact hbase_s
  · rw [hgo]
    by_cases hra : args.recordAttempts = true
    · simp only [hra, if_true]
      rw [dictGet_dictSet_ne _ _ _ _ (by decide)]
      exact hbase_f
    · simp only [hra, Bool.false_eq_true, if_false]
      exact hbase_f
  · rw [hgo]
    by_cases hra : args.recordAttempts = true
    · simp only [hra, if_true]
      rw [dictGet_dictSet_ne _ _ _ _ (by decide)]
      exact hbase_r
    · simp only [hra, Bool.false_eq_true, if_false]
      exact hbase_r
  · rw [hgo]
    intro ev hev
    simp only [List.mem_append] at hev
    rcases hev with hev | hev | hev <;>
      exact attemptEvs_not_writePage _ ev hev
  · simp only [mainLoop]
    rw [if_neg (by simp [hurl]), if_neg hskip]
    rw [hgo]

/-- Witness for C3: a one-record store against engines whose content is
four characters long, rejected in all three rounds. -/
theorem c3_low_quality_exhausted_witness :
    dictGet (processGo (wEnvLowQ.tools 1) wArgs wEnvLowQ.fs maxFilterRetry 0 []
        (recAt [[("url", JVal.s "https://site.example/a")]] 1)).ref "fetcher_used" =
      some (JVal.s "jina(low_quality)") :=
  (c3_low_quality_exhausted wEnvLowQ wArgs 1 []
    ⟨[[("url", .s "https://site.example/a")]], [], 0, 0, 0⟩
    ⟨"T", "stub", ""⟩ ⟨"T", "stub", ""⟩ ⟨"T", "stub", ""⟩
    "jina" "jina" "jina" "line_count<10" "line_count<10" "line_count<10"
    [⟨"jina_main", "jina", "https://site.example/a", true, ""⟩]
    [⟨"jina_main", "jina", "https://site.example/a", true, ""⟩]
    [⟨"jina_main", "jina", "https://site.example/a", true, ""⟩]
    (by decide) (by decide) (by decide) (by decide) (by decide) (by decide)
    (by decide) (by decide)).2.1

/-- `load_references` distributes over concatenation of the line list. -/
theorem loadReferences_append (loads : String → Option CRec) (l1 l2 : List String) :
    loadReferences loads (l1 ++ l2) = loadReferences loads l1 ++ loadReferences loads l2 := by
  induction l1 with
  | nil => simp [loadReferences]
  | cons hd tl ih =>
    simp only [loadReferences, List.cons_append, List.foldr_cons] at ih ⊢
    by_cases hb : String.mk (pyStrip hd.data) = ""
    · simp only [hb, if_pos rfl]
      exact ih
    · rw [if_neg hb, if_neg hb, ih]
      rfl

/-- C8 counterexample: loading a store whose single line is not valid JSON
(`json.loads` rejects it — modelled by a parse oracle failing on this
line) produces a placeholder record for that line, not nothing: the claim
"no record is created from it" is false. -/
theorem c8_invalid_line_creates_record_cex :
    loadReferences (fun _ => none) ["this is not json"] =
      [[("error", JVal.s "json_decode_error"), ("raw", JVal.s "this is not json")]] := by
  decide

/-- C8 amended: a store line that is not valid JSON is not skipped but
replaced by the placeholder record with keys `error` (set to
`json_decode_error`) and `raw` (the stripped line); the batch is not
aborted, and during processing the placeholder — having no truthy `url` —
is skipped with only the counters advanced: no fetch is attempted, the
store is not rewritten for it, and the loop continues with the remaining
records. -/
theorem c8_invalid_line_placeholder (loads : String → Option CRec)
    (pre post : List String) (line : String)
    (hblank : pyStrip line.data ≠ [])
    (hbad : loads (String.mk (pyStrip line.data)) = none) :
    loadReferences loads (pre ++ line :: post) =
      loadReferences loads pre ++
        [("error", .s "json_decode_error"), ("raw", .s (String.mk (pyStrip line.data)))] ::
        loadReferences loads post ∧
    truthyOpt (dictGet [("error", JVal.s "json_decode_error"),
        ("raw", JVal.s (String.mk (pyStrip line.data)))] "url") = false ∧
    (∀ (env : Env) (args : Args) (idx : Int) (rest : List Int) (st : RunSt),
      truthyOpt (dictGet (recAt st.refs idx) "url") = false →
      mainLoop env args (idx :: rest) st =
        mainLoop env args rest { st with total := st.total + 1, failed := st.failed + 1 }) := by
  have hne : ¬ (String.mk (pyStrip line.data) = "") := by
    intro hc
    exact hblank (by simpa using congrArg String.data hc)
  refine ⟨?_, by rfl, ?_⟩
  · rw [loadReferences_append]
    simp only [loadReferences, List.foldr_cons]
    rw [if_neg hne, hbad]
  · intro env args idx rest st h
    simp only [mainLoop]
    rw [if_pos (by simp [h])]

/-- Witness for C8: the single-line invalid store and a one-record run
over the placeholder. -/
theorem c8_invalid_line_placeholder_witness :
    loadReferences (fun _ => none) ["not-json"] =
      [[("error", JVal.s "json_decode_error"), ("raw", JVal.s "not-json")]] ∧
    mainLoop wEnvFail wArgs [1]
        ⟨[[("error", JVal.s "json_decode_error"), ("raw", JVal.s "not-json")]], [], 0, 0, 0⟩ =
      ⟨[[("error", JVal.s "json_decode_error"), ("raw", JVal.s "not-json")]], [], 1, 0, 1⟩ :=
  ⟨(c8_invalid_line_placeholder (fun _ => none) [] [] "not-json"
      (by decide) (by decide)).1,
   (c8_invalid_line_placeholder (fun _ => none) [] [] "not-json"
      (by decide) (by decide)).2.2 wEnvFail wArgs 1 []
      ⟨[[("error", JVal.s "json_decode_error"), ("raw", JVal.s "not-json")]], [], 0, 0, 0⟩
      (by decide)⟩


/-- `FieldUpdated r r'`: the record `r'` arises from `r` by a sequence of
in-place field assignments (`dict[k] = v`), which is the only way the
orchestrator ever modifies a loaded record. -/
inductive FieldUpdated : CRec → CRec → Prop
  | refl (r : CRec) : FieldUpdated r r
  | set (r r' : CRec) (k : String) (v : JVal) : FieldUpdated r r' → FieldUpdated r (dictSet r' k v)

theorem FieldUpdated.trans2 (a b c : CRec) (h1 : FieldUpdated a b) (h2 : FieldUpdated b c) :
    FieldUpdated a c := by
  induction h2 with
  | refl => exact h1
  | set r' k v h ih => exact .set _ _ _ _ ih

theorem attemptEvs_not_saveStore (atts : List Attempt) :
    ∀ ev ∈ attemptEvs atts, ev.isSaveStore = false := by
  intro ev hev
  simp only [attemptEvs, List.mem_map] at hev
  obtain ⟨a, _, rfl⟩ := hev
  rfl

theorem snd_ite_mem {α : Type} {c : Prop} [Decidable c] (p q : String × List α) (ev : α)
    (h : ev ∈ (if c then p else q).2) : ev ∈ p.2 ∨ ev ∈ q.2 := by
  split at h
  · exact Or.inl h
  · exact Or.inr h

theorem saveMarkdown_events (fs : String → Bool) (ref : CRec) (fetched : Norm)
    (outDir : String) (skipEx : Bool) :
    ∀ ev ∈ (saveMarkdown fs ref fetched outDir skipEx).2, ev.isSaveStore = false := by
  intro ev hev
  unfold saveMarkdown at hev
  rcases snd_ite_mem _ _ _ hev with h | h
  · simp at h
  · simp only [List.mem_singleton] at h
    subst h
    rfl

theorem processGo_not_saveStore (rT : Nat → Tools) (args : Args) (fs : String → Bool) :
    ∀ (rl fa : Nat) (agg : List LogEntry) (ref : CRec),
      ∀ ev ∈ (processGo rT args fs rl fa agg ref).events, ev.isSaveStore = false := by
  intro rl
  induction rl with
  | zero =>
    intro fa agg ref ev
    unfold processGo
    cases hfr : fetchWithOrder (rT fa) ref with
    | failed atts =>
      intro hev
      exact attemptEvs_not_saveStore atts ev (by simpa using hev)
    | ok norm used atts =>
      dsimp only
      split_ifs <;> intro hev <;>
        first
          | exact attemptEvs_not_saveStore _ ev (by simpa using hev)
          | (rcases List.mem_append.mp (by simpa using hev) with h | h
             · exact attemptEvs_not_saveStore _ ev h
             · exact saveMarkdown_events _ _ _ _ _ ev h)
  | succ rl ih =>
    intro fa agg ref ev
    unfold processGo
    cases hfr : fetchWithOrder (rT fa) ref with
    | failed atts =>
      intro hev
      exact attemptEvs_not_saveStore atts ev (by simpa using hev)
    | ok norm used atts =>
      dsimp only
      split_ifs <;> intro hev <;>
        first
          | exact attemptEvs_not_saveStore _ ev (by simpa using hev)
          | (rcases List.mem_append.mp (by simpa using hev) with h | h
             · exact attemptEvs_not_saveStore _ ev h
             · first
                | exact ih _ _ _ ev h
                | exact saveMarkdown_events _ _ _ _ _ ev h)

theorem processGo_updated (rT : Nat → Tools) (args : Args) (fs : String → Bool) :
    ∀ (rl fa : Nat) (agg : List LogEntry) (ref : CRec),
      FieldUpdated ref (processGo rT args fs rl fa agg ref).ref := by
  intro rl
  induction rl with
  | zero =>
    intro fa agg ref
    unfold processGo
    cases hfr : fetchWithOrder (rT fa) ref with
    | failed atts =>
      dsimp only
      split_ifs <;> first
        | exact .set _ _ _ _ (.refl _)
        | exact .refl _
    | ok norm used atts =>
      dsimp only
      split_ifs <;> first
        | exact .refl _
        | exact .set _ _ _ _ (.set _ _ _ _ (.refl _))
        | exact .set _ _ _ _ (.set _ _ _ _ (.set _ _ _ _ (.refl _)))
        | exact .set _ _ _ _ (.set _ _ _ _ (.set _ _ _ _ (.set _ _ _ _ (.refl _))))
  | succ rl ih =>
    intro fa agg ref
    unfold processGo
    cases hfr : fetchWithOrder (rT fa) ref with
    | failed atts =>
      dsimp only
      split_ifs <;> first
        | exact .set _ _ _ _ (.refl _)
        | exact .refl _
    | ok norm used atts =>
      dsimp only
      split_ifs <;> first
        | exact ih _ _ _
        | exact .refl _
        | exact .set _ _ _ _ (.set _ _ _ _ (.refl _))
        | exact .set _ _ _ _ (.set _ _ _ _ (.set _ _ _ _ (.refl _)))
        | exact .set _ _ _ _ (.set _ _ _ _ (.set _ _ _ _ (.set _ _ _ _ (.refl _))))

theorem getD_set_ne (l : List CRec) (n i : Nat) (a : CRec) (h : i ≠ n) :
    (l.set n a).getD i [] = l.getD i [] := by
  induction l generalizing n i with
  | nil => simp
  | cons hd tl ih =>
    cases n with
    | zero =>
      cases i with
      | zero => exact absurd rfl h
      | succ j => simp [List.getD]
    | succ m =>
      cases i with
      | zero => simp [List.getD]
      | succ j => simpa [List.getD] using ih m j (by omega)

theorem getD_set_self (l : List CRec) (n : Nat) (a : CRec) (h : n < l.length) :
    (l.set n a).getD n [] = a := by
  induction l generalizing n with
  | nil => simp at h
  | cons hd tl ih =>
    cases n with
    | zero => simp [List.getD]
    | succ m => simpa [List.getD] using ih m (by simpa using h)

theorem set_oob (l : List CRec) (n : Nat) (a : CRec) (h : l.length ≤ n) : l.set n a = l := by
  induction l generalizing n with
  | nil => simp
  | cons hd tl ih =>
    cases n with
    | zero => simp at h
    | succ m => simpa using ih m (by simpa using h)

theorem mainLoop_cons_process (env : Env) (args : Args) (idx : Int) (rest : List Int)
    (st : RunSt)
    (hurl : truthyOpt (dictGet (recAt st.refs idx) "url") = true)
    (hskip : ¬ (dictGet (recAt st.refs idx) "scraped" = some (.b true) ∧ args.force = false)) :
    mainLoop env args (idx :: rest) st =
      mainLoop env args rest
        { refs := setAt st.refs idx
            (processGo (env.tools idx) args env.fs maxFilterRetry 0 [] (recAt st.refs idx)).ref
          events := st.events ++
            (processGo (env.tools idx) args env.fs maxFilterRetry 0 [] (recAt st.refs idx)).events ++
            [Ev.saveStore (saveReferencesLines env.dumps (setAt st.refs idx
              (processGo (env.tools idx) args env.fs maxFilterRetry 0 [] (recAt st.refs idx)).ref))]
          total := st.total + 1
          succ :=
            (match (processGo (env.tools idx) args env.fs maxFilterRetry 0 []
                (recAt st.refs idx)).outcome with
              | .fetchFailed => st.succ
              | _ => st.succ + 1)
          failed :=
            (match (processGo (env.tools idx) args env.fs maxFilterRetry 0 []
                (recAt st.refs idx)).outcome with
              | .fetchFailed => st.failed + 1
              | _ => st.failed) } := by
  simp only [mainLoop]
  rw [if_neg (by simp [hurl]), if_neg hskip]
  cases hoc : (processGo (env.tools idx) args env.fs maxFilterRetry 0 []
      (recAt st.refs idx)).outcome <;> simp [hoc]

theorem mainLoop_preserves (env : Env) (args : Args) :
    ∀ (idxs : List Int) (st : RunSt),
      (mainLoop env args idxs st).refs.length = st.refs.length ∧
      (∀ i : Nat, FieldUpdated (st.refs.getD i []) ((mainLoop env args idxs st).refs.getD i [])) ∧
      (∀ ls, Ev.saveStore ls ∈ (mainLoop env args idxs st).events →
        Ev.saveStore ls ∈ st.events ∨ ls.length = st.refs.length) := by
  intro idxs
  induction idxs with
  | nil =>
    intro st
    exact ⟨rfl, fun i => .refl _, fun ls h => Or.inl h⟩
  | cons idx rest ih =>
    intro st
    by_cases hurl : truthyOpt (dictGet (recAt st.refs idx) "url") = true
    · by_cases hskip : dictGet (recAt st.refs idx) "scraped" = some (.b true) ∧ args.force = false
      · have hstep : mainLoop env args (idx :: rest) st =
            mainLoop env args rest { st with total := st.total + 1 } := by
          simp only [mainLoop]
          rw [if_neg (by simp [hurl]), if_pos hskip]
        rw [hstep]
        exact ih _
      · rw [mainLoop_cons_process env args idx rest st hurl hskip]
        obtain ⟨ihlen, ihupd, ihev⟩ := ih
          { refs := setAt st.refs idx
              (processGo (env.tools idx) args env.fs maxFilterRetry 0 [] (recAt st.refs idx)).ref
            events := st.events ++
              (processGo (env.tools idx) args env.fs maxFilterRetry 0 [] (recAt st.refs idx)).events ++
              [Ev.saveStore (saveReferencesLines env.dumps (setAt st.refs idx
                (processGo (env.tools idx) args env.fs maxFilterRetry 0 [] (recAt st.refs idx)).ref))]
            total := st.total + 1
            succ :=
              (match (processGo (env.tools idx) args env.fs maxFilterRetry 0 []
                  (recAt st.refs idx)).outcome with
                | .fetchFailed => st.succ
                | _ => st.succ + 1)
            failed :=
              (match (processGo (env.tools idx) args env.fs maxFilterRetry 0 []
                  (recAt st.refs idx)).outcome with
                | .fetchFailed => st.failed + 1
                | _ => st.failed) }
        have hlen2 : (setAt st.refs idx
            (processGo (env.tools idx) args env.fs maxFilterRetry 0 []
              (recAt st.refs idx)).ref).length = st.refs.length := by
          simp [setAt]
        refine ⟨by rw [ihlen]; exact hlen2, ?_, ?_⟩
        · intro i
          refine FieldUpdated.trans2 _ _ _ ?_ (ihupd i)
          by_cases hi : i = (idx - 1).toNat
          · rw [hi]
            by_cases hin : (idx - 1).toNat < st.refs.length
            · rw [show (setAt st.refs idx
                  (processGo (env.tools idx) args env.fs maxFilterRetry 0 []
                    (recAt st.refs idx)).ref).getD (idx - 1).toNat [] =
                  (processGo (env.tools idx) args env.fs maxFilterRetry 0 []
                    (recAt st.refs idx)).ref from getD_set_self _ _ _ hin]
              exact processGo_updated _ _ _ _ _ _ _
            · rw [show setAt st.refs idx
                  (processGo (env.tools idx) args env.fs maxFilterRetry 0 []
                    (recAt st.refs idx)).ref = st.refs from set_oob _ _ _ (by omega)]
              exact .refl _
          · rw [show (setAt st.refs idx
                (processGo (env.tools idx) args env.fs maxFilterRetry 0 []
                  (recAt st.refs idx)).ref).getD i [] = st.refs.getD i [] from
                getD_set_ne _ _ _ _ hi]
            exact .refl _
        · intro ls hls
          rcases ihev ls hls with hmem | hlen
          · rcases List.mem_append.mp hmem with hmem2 | hmem2
            · rcases List.mem_append.mp hmem2 with hmem3 | hmem3
              · exact Or.inl hmem3
              · have hfalse := processGo_not_saveStore (env.tools idx) args env.fs
                  maxFilterRetry 0 [] (recAt st.refs idx) _ hmem3
                simp [Ev.isSaveStore] at hfalse
            · simp only [List.mem_singleton] at hmem2
              right
              have hls2 : ls = saveReferencesLines env.dumps (setAt st.refs idx
                  (processGo (env.tools idx) args env.fs maxFilterRetry 0 []
                    (recAt st.refs idx)).ref) := by
                injection hmem2
              rw [hls2]
              simp [saveReferencesLines, setAt]
          · right
            rw [hlen]
            exact hlen2
    · have hstep : mainLoop env args (idx :: rest) st =
          mainLoop env args rest { st with total := st.total + 1, failed := st.failed + 1 } := by
        simp only [mainLoop]
        rw [if_pos (by simpa using hurl)]
      rw [hstep]
      exact ih _

theorem loadReferences_map (loads : String → Option CRec) (lines : List String)
    (hblank : ∀ l ∈ lines, pyStrip l.data ≠ [])
    (hparse : ∀ l ∈ lines, loads (String.mk (pyStrip l.data)) ≠ none) :
    loadReferences loads lines =
      lines.map (fun l => (loads (String.mk (pyStrip l.data))).getD []) := by
  induction lines with
  | nil => rfl
  | cons hd tl ih =>
    have hne : ¬ (String.mk (pyStrip hd.data) = "") := by
      intro hc
      exact hblank hd (by simp) (by simpa using congrArg String.data hc)
    obtain ⟨d, hd2⟩ := Option.ne_none_iff_exists'.mp (hparse hd (by simp))
    simp only [loadReferences, List.foldr_cons, List.map_cons]
    rw [if_neg hne, hd2]
    have ih2 := ih (fun l hl => hblank l (by simp [hl])) (fun l hl => hparse l (by simp [hl]))
    simp only [loadReferences] at ih2
    rw [ih2]
    simp [hd2]

/-- C9: for a well-formed CitationStore (every line non-blank and valid
JSON), a run preserves the store's structure: the loaded records are
exactly the parsed lines in file order, the record count equals the line
count before and after the run, every record position is only ever
changed by in-place field assignments (`FieldUpdated`), and every store
rewrite performed during the run writes exactly one line per record — no
record is inserted, removed or reordered. -/
theorem c9_store_structure_preserved (env : Env) (args : Args) (fileLines : List String)
    (hblank : ∀ l ∈ fileLines, pyStrip l.data ≠ [])
    (hparse : ∀ l ∈ fileLines, env.loads (String.mk (pyStrip l.data)) ≠ none) :
    loadReferences env.loads fileLines =
      fileLines.map (fun l => (env.loads (String.mk (pyStrip l.data))).getD []) ∧
    (loadReferences env.loads fileLines).length = fileLines.length ∧
    (mainRun env args fileLines).refs.length = fileLines.length ∧
    (∀ i : Nat, FieldUpdated ((loadReferences env.loads fileLines).getD i [])
      ((mainRun env args fileLines).refs.getD i [])) ∧
    (∀ ls, Ev.saveStore ls ∈ (mainRun env args fileLines).events →
      ls.length = fileLines.length) := by
  have hmap := loadReferences_map env.loads fileLines hblank hparse
  have hlen : (loadReferences env.loads fileLines).length = fileLines.length := by
    rw [hmap, List.length_map]
  obtain ⟨plen, pupd, pev⟩ := mainLoop_preserves env args
    (intRange (clampStart args.start) (clampEnd args.endOpt (loadReferences env.loads fileLines).length))
    ⟨loadReferences env.loads fileLines, [], 0, 0, 0⟩
  refine ⟨hmap, hlen, ?_, ?_, ?_⟩
  · show (mainRun env args fileLines).refs.length = fileLines.length
    simp only [mainRun]
    rw [plen]
    exact hlen
  · intro i
    simpa only [mainRun] using pupd i
  · intro ls hls
    rcases pev ls (by simpa only [mainRun] using hls) with hmem | hlen2
    · simp at hmem
    · rw [hlen2]
      exact hlen

/-- Witness for C9 on a two-line store (one fetchable record, one already
scraped) against always-failing engines. -/
theorem c9_store_structure_preserved_witness :
    (mainRun wEnvFail wArgs ["A", "B"]).refs.length = 2 :=
  (c9_store_structure_preserved wEnvFail wArgs ["A", "B"]
    (by decide) (by decide)).2.2.1

end Rag
